import Mathlib

/-!
Verification of `EmbedMarkdownImage.py` (a three-pass Markdown image embedder).

The program is shallowly embedded:
  * file bytes are `List Nat` (each `< 256`), documents are `List Char`;
  * the filesystem is an association list from absolute path to byte content;
  * MD5 and base64 are implemented concretely (bit operations on `Nat` with
    explicit reduction modulo `2 ^ 32`);
  * the regular expressions of the source are compiled by hand into the
    deterministic matchers they denote (every quantified class in the source
    patterns excludes its closing delimiter, so the backtracking search has a
    unique outcome: scan for the leftmost position at which the pattern
    matches, each group ending at the first occurrence of its delimiter);
  * `fileinput` in-place editing is modelled as a fold over the document's
    lines (split after each newline character, terminators kept), printing a
    line back means appending it to the accumulated output.
The source is Python-2 flavoured (`from __future__ import print_function`,
`/usr/bin/python` shebang), so `base64.b64encode` yields a plain string that
string formatting inserts verbatim.
-/

set_option maxRecDepth 100000

/-- A document, line, path or label: a list of characters. -/
abbrev Str := List Char

/-- Bytes of a file. -/
abbrev Bytes := List Nat

/-! ## Generic list utilities -/

/-- Split a list at the first occurrence of `c`; the delimiter is dropped.
`none` when `c` does not occur. -/
def splitAtChar (c : Char) : Str → Option (Str × Str)
  | [] => none
  | x :: xs =>
    if x = c then some ([], xs)
    else match splitAtChar c xs with
      | some (pre, post) => some (x :: pre, post)
      | none => none

/-- `l` starts with `p`. -/
def startsWithL (p l : Str) : Bool :=
  match p, l with
  | [], _ => true
  | _ :: _, [] => false
  | a :: ps, b :: ls => a = b && startsWithL ps ls

/-- `p` occurs as a contiguous substring of `l` (Python's `in` on strings). -/
def hasSub (p : Str) : Str → Bool
  | [] => startsWithL p []
  | l@(_ :: ls) => startsWithL p l || hasSub p ls

/-- Cut a list into chunks of `n` elements (the final chunk may be shorter);
models reading a file `n` characters at a time.  Structural recursion on a
fuel argument (one unit per chunk suffices, since `n ≥ 1` drops at least one
element per step). -/
def chunksOfGo (n : Nat) : Nat → List α → List (List α)
  | 0, _ => []
  | _, [] => []
  | fuel + 1, l => l.take n :: chunksOfGo n fuel (l.drop n)

def chunksOf (n : Nat) (l : List α) : List (List α) := chunksOfGo n l.length l

/-- Split a document into its lines, Python style: split after each `'\n'`,
keeping the terminator with its line; a final fragment without a terminator
is a line of its own. -/
def splitLinesGo : Str → Str → List Str
  | [], acc => if acc = [] then [] else [acc.reverse]
  | c :: cs, acc =>
    if c = '\n' then (acc.reverse ++ ['\n']) :: splitLinesGo cs []
    else splitLinesGo cs (c :: acc)

def splitLines (s : Str) : List Str := splitLinesGo s []

/-- `s` repeated `n` times (Python `s * n`). -/
def repeatN (s : Str) : Nat → Str
  | 0 => []
  | n + 1 => s ++ repeatN s n

/-- Association-list lookup (Python `dict[k]` / `k in dict`). -/
def alookup (k : Str) : List (Str × β) → Option β
  | [] => none
  | (a, b) :: t => if a = k then some b else alookup k t

/-- Association-list removal (Python `del dict[k]`; keys are unique in every
dictionary the program builds, so removing every binding of `k` is the
removal of the one entry). -/
def aerase (k : Str) : List (Str × β) → List (Str × β)
  | [] => []
  | (a, b) :: t => if a = k then aerase k t else (a, b) :: aerase k t

/-! ## MD5 (`hashlib.md5`)

Implemented over byte lists; 32-bit words are `Nat`s kept below `2 ^ 32` by
explicit `% 4294967296`. -/

def M32 : Nat := 4294967296

/-- Bitwise complement on 32-bit words. -/
def bnot32 (x : Nat) : Nat := 4294967295 - x

/-- Left rotation of a 32-bit word, expressed arithmetically. -/
def rotl32 (x s : Nat) : Nat := (x * 2 ^ s) % M32 + x / 2 ^ (32 - s)

/-- The 64 sine-derived round constants of MD5. -/
def md5K : List Nat :=
  [3614090360, 3905402710, 606105819, 3250441966, 4118548399, 1200080426,
   2821735955, 4249261313, 1770035416, 2336552879, 4294925233, 2304563134,
   1804603682, 4254626195, 2792965006, 1236535329, 4129170786, 3225465664,
   643717713, 3921069994, 3593408605, 38016083, 3634488961, 3889429448,
   568446438, 3275163606, 4107603335, 1163531501, 2850285829, 4243563512,
   1735328473, 2368359562, 4294588738, 2272392833, 1839030562, 4259657740,
   2763975236, 1272893353, 4139469664, 3200236656, 681279174, 3936430074,
   3572445317, 76029189, 3654602809, 3873151461, 530742520, 3299628645,
   4096336452, 1126891415, 2878612391, 4237533241, 1700485571, 2399980690,
   4293915773, 2240044497, 1873313359, 4264355552, 2734768916, 1309151649,
   4149444226, 3174756917, 718787259, 3951481745]

/-- The per-round left-rotation amounts of MD5. -/
def md5S : List Nat :=
  [7, 12, 17, 22, 7, 12, 17, 22, 7, 12, 17, 22, 7, 12, 17, 22,
   5, 9, 14, 20, 5, 9, 14, 20, 5, 9, 14, 20, 5, 9, 14, 20,
   4, 11, 16, 23, 4, 11, 16, 23, 4, 11, 16, 23, 4, 11, 16, 23,
   6, 10, 15, 21, 6, 10, 15, 21, 6, 10, 15, 21, 6, 10, 15, 21]

/-- One MD5 round on state `(a, b, c, d)` with message words `w`. -/
def md5Round (w : List Nat) (st : Nat × Nat × Nat × Nat) (i : Nat) :
    Nat × Nat × Nat × Nat :=
  let a := st.1
  let b := st.2.1
  let c := st.2.2.1
  let d := st.2.2.2
  let f :=
    if i < 16 then (b &&& c) ||| (bnot32 b &&& d)
    else if i < 32 then (d &&& b) ||| (bnot32 d &&& c)
    else if i < 48 then b ^^^ c ^^^ d
    else c ^^^ (b ||| bnot32 d)
  let g :=
    if i < 16 then i
    else if i < 32 then (5 * i + 1) % 16
    else if i < 48 then (3 * i + 5) % 16
    else (7 * i) % 16
  let fv := (f + a + md5K.getD i 0 + w.getD g 0) % M32
  (d, (b + rotl32 fv (md5S.getD i 0)) % M32, b, c)

/-- The sixteen little-endian 32-bit words of one 64-byte block. -/
def blockWords (blk : Bytes) : List Nat :=
  (List.range 16).map fun i =>
    blk.getD (4 * i) 0 + 256 * blk.getD (4 * i + 1) 0 +
      65536 * blk.getD (4 * i + 2) 0 + 16777216 * blk.getD (4 * i + 3) 0

/-- Digest one 64-byte block into the chaining state. -/
def md5Block (h : Nat × Nat × Nat × Nat) (blk : Bytes) : Nat × Nat × Nat × Nat :=
  let r := (List.range 64).foldl (md5Round (blockWords blk)) h
  ((h.1 + r.1) % M32, (h.2.1 + r.2.1) % M32,
   (h.2.2.1 + r.2.2.1) % M32, (h.2.2.2 + r.2.2.2) % M32)

/-- `n` little-endian bytes of `x`. -/
def leBytes : Nat → Nat → Bytes
  | 0, _ => []
  | n + 1, x => x % 256 :: leBytes n (x / 256)

/-- MD5 padding: `0x80`, zeros to 56 mod 64, then the 8-byte bit length. -/
def md5Pad (msg : Bytes) : Bytes :=
  msg ++ 128 :: List.replicate ((119 - msg.length % 64) % 64) 0 ++
    leBytes 8 (8 * msg.length)

def hexDigit (n : Nat) : Char :=
  "0123456789abcdef".data.getD n '0'

/-- Two lowercase hex characters of one byte. -/
def byteHex (b : Nat) : Str := [hexDigit (b / 16), hexDigit (b % 16)]

/-- The lowercase hex digest of `hashlib.md5(msg).hexdigest()`. -/
def md5hex (msg : Bytes) : Str :=
  let st := (chunksOf 64 (md5Pad msg)).foldl md5Block
    (1732584193, 4023233417, 2562383102, 271733878)
  ((leBytes 4 st.1 ++ leBytes 4 st.2.1 ++ leBytes 4 st.2.2.1 ++
    leBytes 4 st.2.2.2).map byteHex).flatten

/-! ## Base64 (`base64.b64encode`, RFC 4648 with `=` padding)

Under the source's Python 2 the encoder returns a plain string which the
data-block format inserts verbatim. -/

def b64Alphabet : Str :=
  "ABCDEFGHIJKLMNOPQRSTUVWXYZabcdefghijklmnopqrstuvwxyz0123456789+/".data

def b64Char (n : Nat) : Char := b64Alphabet.getD n 'A'

def encodeB64 : Bytes → Str
  | [] => []
  | [b1] => [b64Char (b1 / 4), b64Char (b1 % 4 * 16), '=', '=']
  | [b1, b2] =>
    [b64Char (b1 / 4), b64Char (b1 % 4 * 16 + b2 / 16), b64Char (b2 % 16 * 4), '=']
  | b1 :: b2 :: b3 :: rest =>
    b64Char (b1 / 4) :: b64Char (b1 % 4 * 16 + b2 / 16) ::
      b64Char (b2 % 16 * 4 + b3 / 64) :: b64Char (b3 % 64) :: encodeB64 rest

/-- Index of a character in the base64 alphabet. -/
def b64Val (c : Char) : Option Nat := b64Alphabet.indexOf? c

/-- Base64 decoding of a padded string (used only to state the round-trip
property of the appended payloads): groups of four characters decode to
three bytes, `=` padding in the final group to two or one. -/
def decodeB64 : Str → Option Bytes
  | [] => some []
  | c1 :: c2 :: c3 :: c4 :: rest =>
    match b64Val c1, b64Val c2 with
    | some v1, some v2 =>
      if c3 = '=' then
        if c4 = '=' ∧ rest = [] then some [v1 * 4 + v2 / 16] else none
      else
        match b64Val c3 with
        | some v3 =>
          if c4 = '=' then
            if rest = [] then some [v1 * 4 + v2 / 16, v2 % 16 * 16 + v3 / 4]
            else none
          else
            match b64Val c4, decodeB64 rest with
            | some v4, some bs =>
              some ((v1 * 4 + v2 / 16) :: (v2 % 16 * 16 + v3 / 4) ::
                (v3 % 4 * 64 + v4) :: bs)
            | _, _ => none
        | none => none
    | _, _ => none
  | _ => none

/-! ## POSIX path helpers used by the source -/

/-- Index of the last occurrence of `c`. -/
def lastIdxOf (c : Char) : Str → Option Nat
  | [] => none
  | x :: xs =>
    match lastIdxOf c xs with
    | some i => some (i + 1)
    | none => if x = c then some 0 else none

/-- `os.path.isabs`: the path starts with a slash. -/
def isAbsPath (p : Str) : Bool := startsWithL ['/'] p

/-- `os.path.basename`: everything after the last slash. -/
def basenameP (p : Str) : Str :=
  match lastIdxOf '/' p with
  | none => p
  | some i => p.drop (i + 1)

/-- `os.path.dirname`: everything before the last slash, with trailing
slashes stripped unless the head is all slashes. -/
def dirnameP (p : Str) : Str :=
  match lastIdxOf '/' p with
  | none => []
  | some i =>
    let head := p.take (i + 1)
    if head.all (· = '/') then head
    else (head.reverse.dropWhile (· = '/')).reverse

/-- `os.path.splitext`: split at the last dot, unless every character before
it is a dot (so a bare `.png` has no extension). -/
def splitextP (b : Str) : Str × Str :=
  match lastIdxOf '.' b with
  | none => (b, [])
  | some i =>
    if (b.take i).any (· ≠ '.') then (b.take i, b.drop i) else (b, [])

/-- `os.path.join` for the shapes the source produces (the second component
is never absolute except through `isAbsPath`, which is checked first). -/
def joinP (a b : Str) : Str :=
  if isAbsPath b then b
  else if a = [] then b
  else if a.getLast? = some '/' then a ++ b
  else a ++ '/' :: b

/-! ## The program's environment: document directory and filesystem -/

/-- The filesystem visible to one run: an association list from absolute
path to byte content, plus the document's directory (`self.__basedir`). -/
structure Env where
  basedir : Str
  fs : List (Str × Bytes)
deriving DecidableEq

/-- `os.path.realpath(os.path.join(basedir, p))` for relative `p`, the path
itself when absolute.  `realpath` normalisation (symlinks, `.`/`..`) is
modelled as the identity: paths in the environment are taken as already
normal. -/
def resolvePath (env : Env) (p : Str) : Str :=
  if isAbsPath p then p else joinP env.basedir p

/-- The extension allow-list of `__GetImageInfo`. -/
def allowedExts : List Str :=
  [".jpg", ".jpeg", ".png", ".gif", ".svg", ".webp", ".bmp", ".tif"].map
    String.data

/-- The configuration keys consumed by the three passes (defaults from
`MarkDownFile.__init__`; the backup options are out of scope). -/
structure Config where
  spacelines : Nat := 20
  useOldDataFlag : Bool := false
  keepUselessDataFlag : Bool := false

/-- The label mapping `self.__imageFileDict`: label to `none` (referenced,
no source known) or `some (absolute path, extension)`. -/
abbrev ImgDict := List (Str × Option (Str × Str))

/-- CPython dict update as the source relies on it: an existing key keeps
its position (keys are unique, so replacing the first binding is the
update), a new key is appended. -/
def dictSet : ImgDict → Str → Option (Str × Str) → ImgDict
  | [], k, v => [(k, v)]
  | (a, b) :: t, k, v => if a = k then (k, v) :: t else (a, b) :: dictSet t k v

/-- CPython `del d[k]`. -/
def dictErase (d : ImgDict) (k : Str) : ImgDict := aerase k d

/-! ## The source's regular expressions, compiled to matchers

Every quantified class excludes its closing delimiter, so each pattern has a
unique match at a given position: each group runs to the first occurrence of
its delimiter.  `search` scans for the leftmost matching position, `sub`
replaces non-overlapping matches left to right. -/

/-- `!\[([^]]*)\]` matches at the head. -/
def matchImageAt (l : Str) : Bool :=
  match l with
  | c1 :: c2 :: rest => c1 = '!' && c2 = '[' && (splitAtChar ']' rest).isSome
  | _ => false

/-- `re.search` of the image marker pattern succeeds somewhere in `l`. -/
def hasImageRef : Str → Bool
  | [] => false
  | l@(_ :: ls) => matchImageAt l || hasImageRef ls

/-- `!\[([^]]*)\]\[([^]]*)\]` at the head: groups `(alt, label)`. -/
def matchInternalAt (l : Str) : Option (Str × Str) :=
  match l with
  | c1 :: c2 :: rest =>
    if c1 = '!' ∧ c2 = '[' then
      match splitAtChar ']' rest with
      | some (g1, rest2) =>
        match rest2 with
        | c3 :: rest3 =>
          if c3 = '[' then
            match splitAtChar ']' rest3 with
            | some (g2, _) => some (g1, g2)
            | none => none
          else none
        | [] => none
      | none => none
    else none
  | _ => none

/-- `re.search` of the internal-image pattern: leftmost match's groups. -/
def searchInternal : Str → Option (Str × Str)
  | [] => none
  | l@(_ :: ls) =>
    match matchInternalAt l with
    | some r => some r
    | none => searchInternal ls

/-- `!\[([^]]*)\]\(([^)]*)\)` at the head: groups and the remainder after
the match. -/
def matchExternalAt (l : Str) : Option (Str × Str × Str) :=
  match l with
  | c1 :: c2 :: rest =>
    if c1 = '!' ∧ c2 = '[' then
      match splitAtChar ']' rest with
      | some (g1, rest2) =>
        match rest2 with
        | c3 :: rest3 =>
          if c3 = '(' then
            match splitAtChar ')' rest3 with
            | some (g2, rest4) => some (g1, g2, rest4)
            | none => none
          else none
        | [] => none
      | none => none
    else none
  | _ => none

/-- `re.search` of the external-image pattern: leftmost match's groups. -/
def searchExternal : Str → Option (Str × Str)
  | [] => none
  | l@(_ :: ls) =>
    match matchExternalAt l with
    | some (g1, g2, _) => some (g1, g2)
    | none => searchExternal ls

/-- `re.sub` of the external-image pattern by a literal replacement, on a
fuel argument (one unit per consumed character suffices). -/
def subExternalGo (repl : Str) : Nat → Str → Str
  | 0, l => l
  | _ + 1, [] => []
  | fuel + 1, l@(c :: cs) =>
    match matchExternalAt l with
    | some (_, _, rest) => repl ++ subExternalGo repl fuel rest
    | none => c :: subExternalGo repl fuel cs

def subExternal (repl l : Str) : Str := subExternalGo repl l.length l

/-- `\[([^]]*)\]:data:image.*` at the head: group 1 (the trailing `.*`
always matches). -/
def matchDataAt (l : Str) : Option Str :=
  match l with
  | c :: rest =>
    if c = '[' then
      match splitAtChar ']' rest with
      | some (g1, rest2) =>
        if startsWithL ":data:image".data rest2 then some g1 else none
      | none => none
    else none
  | [] => none

/-- `re.search` of the data-block pattern: leftmost match's group. -/
def searchData : Str → Option Str
  | [] => none
  | l@(_ :: ls) =>
    match matchDataAt l with
    | some g => some g
    | none => searchData ls

/-! ## `GetLinesep`: line-separator detection over 1024-character chunks -/

def getLinesepGo : List Str → Str → Str
  | [], ls => ls
  | d :: rest, ls =>
    if hasSub ['\r', '\n'] d then ['\r', '\n']
    else if hasSub ['\n'] d then ls ++ ['\n']
    else if hasSub ['\r'] d then getLinesepGo rest ['\r']
    else if ls = ['\r'] then ls
    else getLinesepGo rest ls

def GetLinesep (content : Str) : Str := getLinesepGo (chunksOf 1024 content) []

/-! ## The classifier -/

/-- `__GetMd5Label`: first `labelLength` hex characters of the MD5 of the
file's bytes; `none` when the path does not exist.  The source's per-path
digest cache only avoids recomputing over an unchanged file and is
observationally inert; its `labelLength` type test always passes for a
natural number; the chunked read hashes exactly the file's bytes. -/
def GetMd5Label (env : Env) (filePath : Str) (labelLength : Nat) : Option Str :=
  match alookup filePath env.fs with
  | none => none
  | some bytes => some ((md5hex bytes).take labelLength)

/-- The result dictionary of `__GetImageInfo` (`type` of `None`,
`"internal"` or `"external"` with the fields each carries). -/
inductive ImageInfo where
  | none : ImageInfo
  | internal (label : Str) : ImageInfo
  | external (path abspath label ext : Str) : ImageInfo
deriving DecidableEq

/-- `__GetImageInfo`: classify one line.  The `getD []` for the external
label is unreachable defaulting: the existence test just above guarantees
`GetMd5Label` returns a value. -/
def GetImageInfo (env : Env) (line : Str) : ImageInfo :=
  if !hasImageRef line then .none
  else
    match searchInternal line with
    | some (_, lbl) => .internal lbl
    | Option.none =>
      match searchExternal line with
      | Option.none => .none
      | some (_, imageFilePath) =>
        if imageFilePath.length = 0 then .none
        else
          let imageFileAbsPath := resolvePath env imageFilePath
          if (alookup imageFileAbsPath env.fs).isNone then .none
          else
            let ext := (splitextP (basenameP imageFilePath)).2
            if ext ∈ allowedExts then
              .external imageFilePath imageFileAbsPath
                ((GetMd5Label env imageFileAbsPath 8).getD []) ext
            else .none

/-! ## Pass 1: `__ReplaceImageLink` -/

/-- One line of pass 1 in the default `EncodeFile` action. -/
def replaceImageLinkLine (env : Env) (d : ImgDict) (line : Str) :
    ImgDict × Str :=
  match GetImageInfo env line with
  | .none => (d, line)
  | .internal lbl => (dictSet d lbl Option.none, line)
  | .external _ abspath lbl ext =>
    (dictSet d lbl (some (abspath, ext)),
     subExternal ('!' :: '[' :: lbl ++ ']' :: '[' :: lbl ++ [']']) line)

/-- Pass 1 over the whole document (`fileinput` in-place editing as a fold
over the lines). -/
def ReplaceImageLink (env : Env) (doc : Str) : ImgDict × Str :=
  (splitLines doc).foldl
    (fun acc line =>
      let r := replaceImageLinkLine env acc.1 line
      (r.1, acc.2 ++ r.2))
    ([], [])

/-- `os.rename`: the content moves to the new path, the old entry goes. -/
def fsRename (fs : List (Str × Bytes)) (oldPath newPath : Str) :
    List (Str × Bytes) :=
  aerase oldPath fs ++ [(newPath, (alookup oldPath fs).getD [])]

/-- One line of pass 1 in the `EncodeNameOnly` action.  A `none` output line
models the source's `continue`, which skips the `print` writing the line
back, so the line is dropped from the document. -/
def replaceNameOnlyLine (env : Env) (line : Str) : Env × Option Str :=
  match GetImageInfo env line with
  | .external path abspath lbl ext =>
    if path.length < 12 then (env, Option.none)
    else
      let imageBasedir := dirnameP path
      let imageFilePathNew := joinP imageBasedir (lbl ++ ext)
      let imageFileAbsPathNew := resolvePath env imageFilePathNew
      let env' :=
        if (alookup imageFileAbsPathNew env.fs).isSome then env
        else { env with fs := fsRename env.fs abspath imageFileAbsPathNew }
      (env',
       some (subExternal ('!' :: '[' :: lbl ++ ']' :: '(' :: imageFilePathNew ++ [')'])
          line))
  | _ => (env, some line)

/-- The whole `EncodeNameOnly` action (`EncodeImageFileName` runs only this
pass); renames take effect for the classification of later lines. -/
def EncodeImageFileName (env : Env) (doc : Str) : Env × Str :=
  (splitLines doc).foldl
    (fun acc line =>
      let r := replaceNameOnlyLine acc.1 line
      (r.1, match r.2 with | some out => acc.2 ++ out | Option.none => acc.2))
    (env, [])

/-! ## Pass 2: `__ProcessOldData` -/

/-- One line of pass 2; an empty output string models the dropped line. -/
def processOldDataLine (cfg : Config) (d : ImgDict) (line : Str) :
    ImgDict × Str :=
  match searchData line with
  | Option.none => (d, line)
  | some lbl =>
    if lbl.length = 0 then (d, line)
    else
      match alookup lbl d with
      | some v =>
        if cfg.useOldDataFlag then (dictErase d lbl, line)
        else if v.isSome then (d, [])
        else (d, line)
      | Option.none =>
        if !cfg.keepUselessDataFlag then (d, []) else (d, line)

/-- Pass 2 over the whole document. -/
def ProcessOldData (cfg : Config) (d : ImgDict) (doc : Str) : ImgDict × Str :=
  (splitLines doc).foldl
    (fun acc line =>
      let r := processOldDataLine cfg acc.1 line
      (r.1, acc.2 ++ r.2))
    (d, [])

/-! ## Pass 3: `__InsertNewData` -/

/-- One appended block:
`{margin}[{label}]:data:image/{ext};base64,{data}{linesep}`. -/
def dataBlock (linesep : Str) (spacelines : Nat) (lbl ext : Str)
    (bytes : Bytes) : Str :=
  repeatN linesep spacelines ++ '[' :: lbl ++ "]:data:image/".data ++ ext ++
    ";base64,".data ++ encodeB64 bytes ++ linesep

/-- Pass 3: the string appended at the end of the document.  Entries with no
path are skipped; a path missing at append time prints a warning and is
skipped. -/
def InsertNewData (env : Env) (linesep : Str) (spacelines : Nat)
    (d : ImgDict) : Str :=
  (d.map fun e =>
    match e.2 with
    | Option.none => []
    | some (p, ext) =>
      match alookup p env.fs with
      | Option.none => []
      | some bytes => dataBlock linesep spacelines e.1 ext bytes).flatten

/-- `EncodeImageInDocument`: the three passes in sequence; the line
separator was detected from the original document at construction time. -/
def EncodeImageInDocument (env : Env) (cfg : Config) (doc : Str) : Str :=
  let linesep := GetLinesep doc
  let p1 := ReplaceImageLink env doc
  let p2 := ProcessOldData cfg p1.1 p1.2
  p2.2 ++ InsertNewData env linesep cfg.spacelines p2.1

/-! ## Canonical reference shapes

`extRef`/`intRef`/`dataRef` name the exact texts the three source patterns
are designed to process (one reference and nothing else on the line); the
lemmas below compute each matcher on them. -/

def extRef (alt path : Str) : Str :=
  '!' :: '[' :: alt ++ ']' :: '(' :: path ++ [')']

def intRef (alt lbl : Str) : Str :=
  '!' :: '[' :: alt ++ ']' :: '[' :: lbl ++ [']']

def dataRef (lbl rest : Str) : Str :=
  '[' :: lbl ++ ']' :: ":data:image".data ++ rest

/-! ## Inert characters: labels, extensions and payloads never contain the
characters the three patterns react to -/

/-- Characters that none of the source's patterns can react to. -/
def isTokChar (c : Char) : Bool :=
  !(c = '!' ∨ c = '[' ∨ c = ']' ∨ c = '(' ∨ c = ')' ∨ c = '\r' ∨ c = '\n')

def tokOK (s : Str) : Bool := s.all isTokChar

/-- The label of a file content: first 8 hex digits of its MD5. -/
def labelOf (B : Bytes) : Str := (md5hex B).take 8

/-! ## Lines in and out of documents -/

/-- A proper line: newline-terminated, no interior newline. -/
def properLine (l : Str) : Prop := ∃ body, l = body ++ ['\n'] ∧ '\n' ∉ body

/-! ## The passes as line-list recursions -/

/-- Pass 1 line by line: the final dictionary and each line's output. -/
def pass1Go (env : Env) (d : ImgDict) : List Str → ImgDict × List Str
  | [] => (d, [])
  | l :: ls =>
    let r := replaceImageLinkLine env d l
    let rest := pass1Go env r.1 ls
    (rest.1, r.2 :: rest.2)

/-- Pass 2 line by line. -/
def pass2Go (cfg : Config) (d : ImgDict) : List Str → ImgDict × List Str
  | [] => (d, [])
  | l :: ls =>
    let r := processOldDataLine cfg d l
    let rest := pass2Go cfg r.1 ls
    (rest.1, r.2 :: rest.2)

/-! ## The pass-1 dictionary invariant -/

/-- Every label paired with a file in the dictionary is the 8-character hash
prefix of that file's bytes, the file is present, and its extension was
allowed. -/
def dictOK (env : Env) (d : ImgDict) : Prop :=
  ∀ k a e, alookup k d = some (some (a, e)) →
    ∃ B, alookup a env.fs = some B ∧ k = labelOf B ∧ e ∈ allowedExts

/-! ## Canonical lines

A canonical line is '\n'-terminated and is either free of reference
markers, or consists of exactly one reference of one of the three shapes
whose components contain no marker or separator characters.  Such lines
are produced, in particular, by the rewrite passes themselves. -/

def canonLine (l : Str) : Prop :=
  (∃ body, l = body ++ ['\n'] ∧ '[' ∉ body ∧ '\r' ∉ body ∧ '\n' ∉ body) ∨
  (∃ alt path, l = extRef alt path ++ ['\n'] ∧
    tokOK alt = true ∧ tokOK path = true) ∨
  (∃ alt lbl, l = intRef alt lbl ++ ['\n'] ∧
    tokOK alt = true ∧ tokOK lbl = true) ∨
  (∃ lbl rest, l = dataRef lbl rest ++ ['\n'] ∧
    tokOK lbl = true ∧ tokOK rest = true)

/-! ## A member-wise dictionary invariant for pass 1 -/

def dictMemOK (env : Env) (d : ImgDict) : Prop :=
  ∀ kv ∈ d, ∀ a e, kv.2 = some (a, e) →
    ∃ B, alookup a env.fs = some B ∧ kv.1 = labelOf B ∧ e ∈ allowedExts

/-! ## The appended data as a list of canonical lines -/

def blockLines (env : Env) (n : Nat) (d : ImgDict) : List Str :=
  (d.map fun e =>
    match e.2 with
    | Option.none => ([] : List Str)
    | some (p, ext) =>
      match alookup p env.fs with
      | Option.none => ([] : List Str)
      | some bytes =>
          List.replicate n (['\n'] : Str) ++
            [dataRef e.1 ('/' :: ext ++ ";base64,".data ++ encodeB64 bytes) ++
              ['\n']]).flatten

/-! # Theorems -/

/-- MD5 test vector: the empty message. -/
theorem md5hex_nil : md5hex [] = "d41d8cd98f00b204e9800998ecf8427e".data := by
  decide

/-- MD5 test vector: the three bytes of `"abc"`. -/
theorem md5hex_abc :
    md5hex [97, 98, 99] = "900150983cd24fb0d6963f7d28e17f72".data := by
  decide

/-- Base64 test vectors (`b64encode` of `"a"`, `"ab"`, `"abc"`, `"abcd"`). -/
theorem encodeB64_vectors :
    encodeB64 [97] = "YQ==".data ∧ encodeB64 [97, 98] = "YWI=".data ∧
      encodeB64 [97, 98, 99] = "YWJj".data ∧
      encodeB64 [97, 98, 99, 100] = "YWJjZA==".data := by
  decide

/-! # Lemma kit -/

/-! ## Base64 round trip -/

theorem b64Val_b64Char : ∀ n < 64, b64Val (b64Char n) = some n := by decide

theorem b64Char_ne_pad : ∀ n < 64, b64Char n ≠ '=' := by decide

theorem decodeB64_encodeB64 :
    ∀ B : Bytes, (∀ b ∈ B, b < 256) → decodeB64 (encodeB64 B) = some B
  | [], _ => rfl
  | [b1], h => by
    have hb1 : b1 < 256 := h b1 (by simp)
    have e1 := b64Val_b64Char (b1 / 4) (by omega)
    have e2 := b64Val_b64Char (b1 % 4 * 16) (by omega)
    simp only [encodeB64, decodeB64, e1, e2, if_pos rfl, and_self, if_true,
      Option.some.injEq, List.cons.injEq, and_true]
    omega
  | [b1, b2], h => by
    have hb1 : b1 < 256 := h b1 (by simp)
    have hb2 : b2 < 256 := h b2 (by simp)
    have e1 := b64Val_b64Char (b1 / 4) (by omega)
    have e2 := b64Val_b64Char (b1 % 4 * 16 + b2 / 16) (by omega)
    have e3 := b64Val_b64Char (b2 % 16 * 4) (by omega)
    have n3 := b64Char_ne_pad (b2 % 16 * 4) (by omega)
    simp only [encodeB64, decodeB64, e1, e2, e3, if_neg n3, if_pos rfl,
      if_true, Option.some.injEq, List.cons.injEq, and_true]
    omega
  | b1 :: b2 :: b3 :: b4 :: rest, h => by
    have hb1 : b1 < 256 := h b1 (by simp)
    have hb2 : b2 < 256 := h b2 (by simp)
    have hb3 : b3 < 256 := h b3 (by simp)
    have e1 := b64Val_b64Char (b1 / 4) (by omega)
    have e2 := b64Val_b64Char (b1 % 4 * 16 + b2 / 16) (by omega)
    have e3 := b64Val_b64Char (b2 % 16 * 4 + b3 / 64) (by omega)
    have e4 := b64Val_b64Char (b3 % 64) (by omega)
    have n3 := b64Char_ne_pad (b2 % 16 * 4 + b3 / 64) (by omega)
    have n4 := b64Char_ne_pad (b3 % 64) (by omega)
    have ih := decodeB64_encodeB64 (b4 :: rest) fun b hb => h b (by simp at hb ⊢; tauto)
    simp only [encodeB64, decodeB64, e1, e2, e3, e4, if_neg n3, if_neg n4, ih,
      Option.some.injEq, List.cons.injEq]
    refine ⟨by omega, by omega, by omega, trivial⟩
  | [b1, b2, b3], h => by
    have hb1 : b1 < 256 := h b1 (by simp)
    have hb2 : b2 < 256 := h b2 (by simp)
    have hb3 : b3 < 256 := h b3 (by simp)
    have e1 := b64Val_b64Char (b1 / 4) (by omega)
    have e2 := b64Val_b64Char (b1 % 4 * 16 + b2 / 16) (by omega)
    have e3 := b64Val_b64Char (b2 % 16 * 4 + b3 / 64) (by omega)
    have e4 := b64Val_b64Char (b3 % 64) (by omega)
    have n3 := b64Char_ne_pad (b2 % 16 * 4 + b3 / 64) (by omega)
    have n4 := b64Char_ne_pad (b3 % 64) (by omega)
    simp only [encodeB64, decodeB64, e1, e2, e3, e4, if_neg n3, if_neg n4,
      Option.some.injEq, List.cons.injEq]
    refine ⟨by omega, by omega, by omega, trivial⟩

/-! ## `splitAtChar` -/

theorem splitAtChar_of_not_mem {c : Char} :
    ∀ {l : Str}, c ∉ l → splitAtChar c l = none
  | [], _ => rfl
  | x :: xs, h => by
    have hx : ¬x = c := fun hc => h (hc ▸ List.mem_cons_self x xs)
    have hxs : c ∉ xs := fun hc => h (List.mem_cons_of_mem x hc)
    simp [splitAtChar, hx, splitAtChar_of_not_mem hxs]

theorem splitAtChar_append {c : Char} :
    ∀ {pre : Str} (post : Str), c ∉ pre →
      splitAtChar c (pre ++ c :: post) = some (pre, post)
  | [], post, _ => by simp [splitAtChar]
  | x :: xs, post, h => by
    have hx : ¬x = c := fun hc => h (hc ▸ List.mem_cons_self x xs)
    have hxs : c ∉ xs := fun hc => h (List.mem_cons_of_mem x hc)
    simp [splitAtChar, hx, splitAtChar_append post hxs]

theorem splitAtChar_eq_some {c : Char} :
    ∀ {l pre post : Str}, splitAtChar c l = some (pre, post) →
      l = pre ++ c :: post ∧ c ∉ pre
  | [], _, _, h => by simp [splitAtChar] at h
  | x :: xs, pre, post, h => by
    by_cases hx : x = c
    · subst hx
      simp [splitAtChar] at h
      obtain ⟨h1, h2⟩ := h
      subst h1; subst h2
      exact ⟨rfl, List.not_mem_nil x⟩
    · simp only [splitAtChar, if_neg hx] at h
      match hs : splitAtChar c xs with
      | some (pre', post') =>
        rw [hs] at h
        simp at h
        obtain ⟨h1, h2⟩ := h
        obtain ⟨e1, e2⟩ := splitAtChar_eq_some hs
        subst h1; subst h2
        refine ⟨by simp [e1], ?_⟩
        intro hm
        rcases List.mem_cons.mp hm with h | h
        · exact hx h.symm
        · exact e2 h
      | none => rw [hs] at h; simp at h

/-! ## Dictionary operations -/

theorem alookup_dictSet_self (k : Str) (v : Option (Str × Str)) :
    ∀ d : ImgDict, alookup k (dictSet d k v) = some v
  | [] => by simp [dictSet, alookup]
  | (a, b) :: t => by
    by_cases ha : a = k
    · simp [dictSet, ha, alookup]
    · simpa [dictSet, ha, alookup] using alookup_dictSet_self k v t

theorem alookup_dictSet_ne (k : Str) (v : Option (Str × Str)) (k' : Str)
    (h : k' ≠ k) :
    ∀ d : ImgDict, alookup k' (dictSet d k v) = alookup k' d
  | [] => by
    have hkk : ¬k = k' := fun e => h e.symm
    simp [dictSet, alookup, hkk]
  | (a, b) :: t => by
    have hkk : ¬k = k' := fun e => h e.symm
    by_cases ha : a = k
    · subst ha
      simp [dictSet, alookup, hkk]
    · simp only [dictSet, if_neg ha, alookup]
      by_cases hk : a = k'
      · simp [hk]
      · simp only [if_neg hk]
        exact alookup_dictSet_ne k v k' h t

theorem alookup_dictSet_isSome (d : ImgDict) (k : Str)
    (v : Option (Str × Str)) (k' : Str)
    (h : (alookup k' (dictSet d k v)).isSome) :
    k' = k ∨ (alookup k' d).isSome := by
  by_cases hk : k' = k
  · exact Or.inl hk
  · right; rwa [alookup_dictSet_ne k v k' hk] at h

theorem alookup_aerase_self (k : Str) :
    ∀ d : List (Str × β), alookup k (aerase k d) = none
  | [] => rfl
  | (a, b) :: t => by
    by_cases ha : a = k
    · simpa [aerase, ha] using alookup_aerase_self k t
    · simpa [aerase, ha, alookup] using alookup_aerase_self k t

theorem alookup_aerase_ne (k k' : Str) (h : k' ≠ k) :
    ∀ d : List (Str × β), alookup k' (aerase k d) = alookup k' d
  | [] => rfl
  | (a, b) :: t => by
    have hkk : ¬k = k' := fun e => h e.symm
    by_cases ha : a = k
    · have hak : ¬a = k' := by rw [ha]; exact hkk
      simp only [aerase, if_pos ha, alookup, if_neg hak]
      exact alookup_aerase_ne k k' h t
    · simp only [aerase, if_neg ha, alookup]
      by_cases hk : a = k'
      · simp [hk]
      · simp only [if_neg hk]
        exact alookup_aerase_ne k k' h t

/-! ## Matcher lemmas -/

theorem startsWithL_self_append (p x : Str) : startsWithL p (p ++ x) = true := by
  induction p with
  | nil => rfl
  | cons c cs ih => simp [startsWithL, ih]

theorem startsWithL_head_ne (p l : Str) (c c' : Char) (h : c ≠ c') :
    startsWithL (c :: p) (c' :: l) = false := by
  simp [startsWithL, h]

theorem matchImageAt_ne_bang (c : Char) (cs : Str) (h : c ≠ '!') :
    matchImageAt (c :: cs) = false := by
  cases cs with
  | nil => rfl
  | cons c2 rest => simp [matchImageAt, h]

theorem matchInternalAt_ne_bang (c : Char) (cs : Str) (h : c ≠ '!') :
    matchInternalAt (c :: cs) = none := by
  cases cs with
  | nil => rfl
  | cons c2 rest =>
    simp only [matchInternalAt]
    rw [if_neg (by simp [h])]

theorem matchExternalAt_ne_bang (c : Char) (cs : Str) (h : c ≠ '!') :
    matchExternalAt (c :: cs) = none := by
  cases cs with
  | nil => rfl
  | cons c2 rest =>
    simp only [matchExternalAt]
    rw [if_neg (by simp [h])]

theorem matchDataAt_ne_bracket (c : Char) (cs : Str) (h : c ≠ '[') :
    matchDataAt (c :: cs) = none := by
  simp only [matchDataAt]
  rw [if_neg h]

theorem hasImageRef_eq_false_no_bang :
    ∀ l : Str, (∀ c ∈ l, c ≠ '!') → hasImageRef l = false
  | [], _ => rfl
  | c :: cs, h => by
    rw [hasImageRef, matchImageAt_ne_bang c cs (h c (by simp))]
    simpa using hasImageRef_eq_false_no_bang cs fun x hx => h x (by simp [hx])

theorem hasImageRef_eq_false_no_bracket :
    ∀ l : Str, (∀ c ∈ l, c ≠ '[') → hasImageRef l = false
  | [], _ => rfl
  | c :: cs, h => by
    have hmi : matchImageAt (c :: cs) = false := by
      cases cs with
      | nil => rfl
      | cons c2 rest =>
        have : ¬(c = '!' ∧ c2 = '[') := fun hc => h c2 (by simp) hc.2
        simp only [matchImageAt]
        simp only [Bool.and_eq_false_iff]
        by_cases hcb : c = '!'
        · left
          simp [hcb, h c2 (by simp)]
        · left; simp [hcb]
    rw [hasImageRef, hmi]
    simpa using hasImageRef_eq_false_no_bracket cs fun x hx => h x (by simp [hx])

theorem searchInternal_eq_none_no_bang :
    ∀ l : Str, (∀ c ∈ l, c ≠ '!') → searchInternal l = none
  | [], _ => rfl
  | c :: cs, h => by
    rw [searchInternal, matchInternalAt_ne_bang c cs (h c (by simp))]
    exact searchInternal_eq_none_no_bang cs fun x hx => h x (by simp [hx])

theorem searchExternal_eq_none_no_bang :
    ∀ l : Str, (∀ c ∈ l, c ≠ '!') → searchExternal l = none
  | [], _ => rfl
  | c :: cs, h => by
    rw [searchExternal, matchExternalAt_ne_bang c cs (h c (by simp))]
    exact searchExternal_eq_none_no_bang cs fun x hx => h x (by simp [hx])

theorem searchData_eq_none_no_bracket :
    ∀ l : Str, (∀ c ∈ l, c ≠ '[') → searchData l = none
  | [], _ => rfl
  | c :: cs, h => by
    rw [searchData, matchDataAt_ne_bracket c cs (h c (by simp))]
    exact searchData_eq_none_no_bracket cs fun x hx => h x (by simp [hx])

theorem searchData_cons_of_none (c : Char) (cs : Str)
    (h : matchDataAt (c :: cs) = none) : searchData (c :: cs) = searchData cs := by
  rw [searchData, h]

theorem searchData_append_no_bracket :
    ∀ a l : Str, (∀ c ∈ a, c ≠ '[') → searchData (a ++ l) = searchData l
  | [], l, _ => rfl
  | c :: cs, l, h => by
    rw [List.cons_append, searchData,
      matchDataAt_ne_bracket c (cs ++ l) (h c (by simp))]
    exact searchData_append_no_bracket cs l fun x hx => h x (by simp [hx])

theorem searchInternal_cons_of_none (c : Char) (cs : Str)
    (h : matchInternalAt (c :: cs) = none) :
    searchInternal (c :: cs) = searchInternal cs := by
  rw [searchInternal, h]

theorem extRef_append (alt path t : Str) :
    extRef alt path ++ t = '!' :: '[' :: (alt ++ ']' :: '(' :: (path ++ ')' :: t)) := by
  simp [extRef]

theorem intRef_append (alt lbl t : Str) :
    intRef alt lbl ++ t = '!' :: '[' :: (alt ++ ']' :: '[' :: (lbl ++ ']' :: t)) := by
  simp [intRef]

theorem dataRef_append (lbl rest t : Str) :
    dataRef lbl rest ++ t = '[' :: (lbl ++ ']' :: (":data:image".data ++ (rest ++ t))) := by
  simp [dataRef]

theorem matchExternalAt_extRef (alt path t : Str) (ha : ']' ∉ alt)
    (hp : ')' ∉ path) :
    matchExternalAt (extRef alt path ++ t) = some (alt, path, t) := by
  rw [extRef_append]
  simp [matchExternalAt, splitAtChar_append _ ha, splitAtChar_append _ hp]

theorem matchInternalAt_extRef (alt path t : Str) (ha : ']' ∉ alt) :
    matchInternalAt (extRef alt path ++ t) = none := by
  rw [extRef_append]
  simp [matchInternalAt, splitAtChar_append _ ha]

theorem matchInternalAt_intRef (alt lbl t : Str) (ha : ']' ∉ alt)
    (hl : ']' ∉ lbl) :
    matchInternalAt (intRef alt lbl ++ t) = some (alt, lbl) := by
  rw [intRef_append]
  simp [matchInternalAt, splitAtChar_append _ ha, splitAtChar_append _ hl]

theorem matchDataAt_dataRef (lbl rest t : Str) (hl : ']' ∉ lbl) :
    matchDataAt (dataRef lbl rest ++ t) = some lbl := by
  have hmk : ∀ z : Str,
      startsWithL [':', 'd', 'a', 't', 'a', ':', 'i', 'm', 'a', 'g', 'e']
        (':' :: 'd' :: 'a' :: 't' :: 'a' :: ':' :: 'i' :: 'm' :: 'a' :: 'g' ::
          'e' :: z) = true := fun z => by simp [startsWithL]
  rw [dataRef_append]
  simp [matchDataAt, splitAtChar_append _ hl, hmk]

theorem hasImageRef_extRef (alt path t : Str) (ha : ']' ∉ alt) :
    hasImageRef (extRef alt path ++ t) = true := by
  rw [extRef_append]
  rw [hasImageRef]
  have : matchImageAt ('!' :: '[' :: (alt ++ ']' :: '(' :: (path ++ ')' :: t))) = true := by
    simp [matchImageAt, splitAtChar_append _ ha]
  simp [this]

theorem hasImageRef_intRef (alt lbl t : Str) (ha : ']' ∉ alt) :
    hasImageRef (intRef alt lbl ++ t) = true := by
  rw [intRef_append]
  rw [hasImageRef]
  have : matchImageAt ('!' :: '[' :: (alt ++ ']' :: '[' :: (lbl ++ ']' :: t))) = true := by
    simp [matchImageAt, splitAtChar_append _ ha]
  simp [this]

theorem searchInternal_intRef (alt lbl t : Str) (ha : ']' ∉ alt)
    (hl : ']' ∉ lbl) :
    searchInternal (intRef alt lbl ++ t) = some (alt, lbl) := by
  have hm := matchInternalAt_intRef alt lbl t ha hl
  rw [intRef_append] at hm ⊢
  rw [searchInternal, hm]

theorem searchExternal_extRef (alt path t : Str) (ha : ']' ∉ alt)
    (hp : ')' ∉ path) :
    searchExternal (extRef alt path ++ t) = some (alt, path) := by
  have hm := matchExternalAt_extRef alt path t ha hp
  rw [extRef_append] at hm ⊢
  rw [searchExternal, hm]

theorem searchInternal_extRef (alt path t : Str) (ha : ']' ∉ alt)
    (hba : '!' ∉ alt) (hbp : '!' ∉ path) (hbt : '!' ∉ t) :
    searchInternal (extRef alt path ++ t) = none := by
  have hm := matchInternalAt_extRef alt path t ha
  rw [extRef_append] at hm ⊢
  rw [searchInternal, hm]
  refine searchInternal_eq_none_no_bang _ fun c hc => ?_
  simp only [List.mem_cons, List.mem_append] at hc
  rcases hc with h | h | h | h | h | h | h <;>
    first
      | (subst h; decide)
      | exact fun e => hba (e ▸ h)
      | exact fun e => hbp (e ▸ h)
      | exact fun e => hbt (e ▸ h)

theorem searchData_dataRef (lbl rest t : Str) (hl : ']' ∉ lbl) :
    searchData (dataRef lbl rest ++ t) = some lbl := by
  have hm := matchDataAt_dataRef lbl rest t hl
  rw [dataRef_append] at hm ⊢
  rw [searchData, hm]

theorem startsWithL_marker_paren (z : Str) :
    startsWithL [':', 'd', 'a', 't', 'a', ':', 'i', 'm', 'a', 'g', 'e']
      ('(' :: z) = false := rfl

theorem startsWithL_marker_bracket (z : Str) :
    startsWithL [':', 'd', 'a', 't', 'a', ':', 'i', 'm', 'a', 'g', 'e']
      ('[' :: z) = false := rfl

theorem searchData_extRef (alt path t : Str) (ha : ']' ∉ alt)
    (hba : '[' ∉ alt) (hbp : '[' ∉ path) :
    searchData (extRef alt path ++ t) = searchData t := by
  rw [extRef_append,
    searchData_cons_of_none _ _ (matchDataAt_ne_bracket '!' _ (by decide))]
  have hm : matchDataAt ('[' :: (alt ++ ']' :: '(' :: (path ++ ')' :: t))) = none := by
    simp [matchDataAt, splitAtChar_append _ ha, startsWithL_marker_paren]
  rw [searchData_cons_of_none _ _ hm,
    searchData_append_no_bracket alt _ (fun c hc e => hba (e ▸ hc)),
    searchData_cons_of_none _ _ (matchDataAt_ne_bracket ']' _ (by decide)),
    searchData_cons_of_none _ _ (matchDataAt_ne_bracket '(' _ (by decide)),
    searchData_append_no_bracket path _ (fun c hc e => hbp (e ▸ hc)),
    searchData_cons_of_none _ _ (matchDataAt_ne_bracket ')' _ (by decide))]

theorem searchData_intRef (alt lbl t : Str) (ha : ']' ∉ alt) (hl : ']' ∉ lbl)
    (hba : '[' ∉ alt) (hbl : '[' ∉ lbl)
    (ht : startsWithL ":data:image".data t = false) :
    searchData (intRef alt lbl ++ t) = searchData t := by
  rw [intRef_append,
    searchData_cons_of_none _ _ (matchDataAt_ne_bracket '!' _ (by decide))]
  have hm : matchDataAt ('[' :: (alt ++ ']' :: '[' :: (lbl ++ ']' :: t))) = none := by
    simp [matchDataAt, splitAtChar_append _ ha, startsWithL_marker_bracket]
  rw [searchData_cons_of_none _ _ hm,
    searchData_append_no_bracket alt _ (fun c hc e => hba (e ▸ hc)),
    searchData_cons_of_none _ _ (matchDataAt_ne_bracket ']' _ (by decide))]
  have hm2 : matchDataAt ('[' :: (lbl ++ ']' :: t)) = none := by
    simp [matchDataAt, splitAtChar_append _ hl, ht]
  rw [searchData_cons_of_none _ _ hm2,
    searchData_append_no_bracket lbl _ (fun c hc e => hbl (e ▸ hc)),
    searchData_cons_of_none _ _ (matchDataAt_ne_bracket ']' _ (by decide))]

/-- Replacement by `re.sub` consumes nothing on the empty string. -/
theorem subExternalGo_nil (repl : Str) : ∀ f, subExternalGo repl f [] = []
  | 0 => rfl
  | _ + 1 => rfl

theorem subExternalGo_step_match (repl : Str) (f : Nat) (c : Char) (cs : Str)
    (g1 g2 rest : Str) (h : matchExternalAt (c :: cs) = some (g1, g2, rest)) :
    subExternalGo repl (f + 1) (c :: cs) = repl ++ subExternalGo repl f rest := by
  simp [subExternalGo, h]

theorem subExternalGo_lf (repl : Str) : ∀ f, subExternalGo repl f ['\n'] = ['\n']
  | 0 => rfl
  | f + 1 => by
    simp only [subExternalGo, matchExternalAt_ne_bang '\n' [] (by decide),
      subExternalGo_nil]

theorem tokOK_spec (s : Str) (h : tokOK s = true) :
    '!' ∉ s ∧ '[' ∉ s ∧ ']' ∉ s ∧ '(' ∉ s ∧ ')' ∉ s ∧ '\r' ∉ s ∧ '\n' ∉ s := by
  refine ⟨?_, ?_, ?_, ?_, ?_, ?_, ?_⟩ <;> intro hm <;>
    (have hx := List.all_eq_true.mp h _ hm; simp [isTokChar] at hx)

theorem tokOK_take (s : Str) (n : Nat) (h : tokOK s = true) :
    tokOK (s.take n) = true := by
  refine List.all_eq_true.mpr fun c hc => ?_
  exact List.all_eq_true.mp h _ ((List.take_sublist n s).subset hc)

theorem isTokChar_hexDigit (n : Nat) : isTokChar (hexDigit n) = true := by
  by_cases h : n < 16
  · exact (by decide : ∀ m < 16, isTokChar (hexDigit m) = true) n h
  · have he : hexDigit n = '0' := by
      unfold hexDigit
      apply List.getD_eq_default
      simp only [String.data]
      simp
      omega
    rw [he]; decide

theorem tokOK_md5hex (B : Bytes) : tokOK (md5hex B) = true := by
  refine List.all_eq_true.mpr fun c hc => ?_
  unfold md5hex at hc
  rcases List.mem_flatten.mp hc with ⟨piece, hpm, hcp⟩
  rcases List.mem_map.mp hpm with ⟨b, _, rfl⟩
  rcases List.mem_cons.mp hcp with h | h
  · rw [h]; exact isTokChar_hexDigit _
  rcases List.mem_cons.mp h with h | h
  · rw [h]; exact isTokChar_hexDigit _
  · exact absurd h (List.not_mem_nil c)

theorem isTokChar_b64Char (n : Nat) : isTokChar (b64Char n) = true := by
  by_cases h : n < 64
  · exact (by decide : ∀ m < 64, isTokChar (b64Char m) = true) n h
  · have he : b64Char n = 'A' := by
      unfold b64Char
      apply List.getD_eq_default
      simp only [b64Alphabet, String.data]
      simp
      omega
    rw [he]; decide

theorem tokOK_encodeB64 : ∀ B : Bytes, tokOK (encodeB64 B) = true
  | [] => rfl
  | [b1] => by
    refine List.all_eq_true.mpr fun c hc => ?_
    simp only [encodeB64, List.mem_cons, List.not_mem_nil, or_false] at hc
    rcases hc with h | h | h | h <;>
      first | (rw [h]; exact isTokChar_b64Char _) | (rw [h]; decide)
  | [b1, b2] => by
    refine List.all_eq_true.mpr fun c hc => ?_
    simp only [encodeB64, List.mem_cons, List.not_mem_nil, or_false] at hc
    rcases hc with h | h | h | h <;>
      first | (rw [h]; exact isTokChar_b64Char _) | (rw [h]; decide)
  | b1 :: b2 :: b3 :: rest => by
    refine List.all_eq_true.mpr fun c hc => ?_
    simp only [encodeB64, List.mem_cons] at hc
    rcases hc with h | h | h | h | h
    · rw [h]; exact isTokChar_b64Char _
    · rw [h]; exact isTokChar_b64Char _
    · rw [h]; exact isTokChar_b64Char _
    · rw [h]; exact isTokChar_b64Char _
    · exact List.all_eq_true.mp (tokOK_encodeB64 rest) _ h

theorem tokOK_allowedExts : ∀ e ∈ allowedExts, tokOK e = true := by decide

theorem length_leBytes (x : Nat) : ∀ n, (leBytes n x).length = n := by
  intro n
  induction n generalizing x with
  | zero => rfl
  | succ m ih => simp [leBytes, ih]

theorem length_md5hex (B : Bytes) : (md5hex B).length = 32 := by
  unfold md5hex
  have hlen : ∀ bs : Bytes, ((bs.map byteHex).flatten).length = 2 * bs.length := by
    intro bs
    induction bs with
    | nil => rfl
    | cons b t ih => simp [byteHex, ih]; omega
  rw [hlen]
  simp [length_leBytes]

theorem length_labelOf (B : Bytes) : (labelOf B).length = 8 := by
  simp [labelOf, List.length_take, length_md5hex]

theorem labelOf_ne_nil (B : Bytes) : labelOf B ≠ [] := by
  intro h
  have := length_labelOf B
  rw [h] at this
  simp at this

theorem tokOK_labelOf (B : Bytes) : tokOK (labelOf B) = true :=
  tokOK_take _ 8 (tokOK_md5hex B)

/-! ## `subExternal` on a canonical external line -/

theorem subExternal_extRef (repl alt path : Str) (ha : ']' ∉ alt)
    (hp : ')' ∉ path) :
    subExternal repl (extRef alt path ++ ['\n']) = repl ++ ['\n'] := by
  have hlen : (extRef alt path ++ ['\n']).length =
      (alt.length + path.length + 5) + 1 := by
    simp [extRef]
    omega
  have hm := matchExternalAt_extRef alt path ['\n'] ha hp
  rw [extRef_append] at hm
  unfold subExternal
  rw [hlen, extRef_append,
    subExternalGo_step_match repl _ _ _ _ _ _ hm, subExternalGo_lf]

/-! ## The classifier on canonical lines -/

theorem GetImageInfo_no_bracket (env : Env) (line : Str)
    (h : ∀ c ∈ line, c ≠ '[') : GetImageInfo env line = .none := by
  unfold GetImageInfo
  rw [hasImageRef_eq_false_no_bracket line h]
  simp

theorem GetImageInfo_no_bang (env : Env) (line : Str)
    (h : ∀ c ∈ line, c ≠ '!') : GetImageInfo env line = .none := by
  unfold GetImageInfo
  rw [hasImageRef_eq_false_no_bang line h]
  simp

theorem GetImageInfo_intRef (env : Env) (alt lbl : Str)
    (ha : tokOK alt = true) (hl : tokOK lbl = true) :
    GetImageInfo env (intRef alt lbl ++ ['\n']) = .internal lbl := by
  obtain ⟨-, -, hra, -, -, -, -⟩ := tokOK_spec alt ha
  obtain ⟨-, -, hrl, -, -, -, -⟩ := tokOK_spec lbl hl
  unfold GetImageInfo
  rw [hasImageRef_intRef alt lbl _ hra, searchInternal_intRef alt lbl _ hra hrl]
  simp

theorem GetImageInfo_extRef_valid (env : Env) (alt path : Str) (B : Bytes)
    (ha : tokOK alt = true) (hp : tokOK path = true) (hne : path ≠ [])
    (hfs : alookup (resolvePath env path) env.fs = some B)
    (hext : (splitextP (basenameP path)).2 ∈ allowedExts) :
    GetImageInfo env (extRef alt path ++ ['\n']) =
      .external path (resolvePath env path) (labelOf B)
        (splitextP (basenameP path)).2 := by
  obtain ⟨hba, -, hra, -, -, -, -⟩ := tokOK_spec alt ha
  obtain ⟨hbp, -, -, -, hpp, -, -⟩ := tokOK_spec path hp
  unfold GetImageInfo
  rw [hasImageRef_extRef alt path _ hra,
    searchInternal_extRef alt path _ hra hba hbp (by decide),
    searchExternal_extRef alt path _ hra hpp]
  simp [hne, hfs, hext, GetMd5Label, labelOf]

theorem GetImageInfo_extRef_invalid (env : Env) (alt path : Str)
    (ha : tokOK alt = true) (hp : tokOK path = true)
    (hinv : path = [] ∨ alookup (resolvePath env path) env.fs = none ∨
      (splitextP (basenameP path)).2 ∉ allowedExts) :
    GetImageInfo env (extRef alt path ++ ['\n']) = .none := by
  obtain ⟨hba, -, hra, -, -, -, -⟩ := tokOK_spec alt ha
  obtain ⟨hbp, -, -, -, hpp, -, -⟩ := tokOK_spec path hp
  unfold GetImageInfo
  rw [hasImageRef_extRef alt path _ hra,
    searchInternal_extRef alt path _ hra hba hbp (by decide),
    searchExternal_extRef alt path _ hra hpp]
  rcases hinv with h | h | h
  · simp [h]
  · by_cases hz : path = []
    · simp [hz]
    · simp [hz, h]
  · by_cases hz : path = []
    · simp [hz]
    · cases hfs : alookup (resolvePath env path) env.fs with
      | none => simp [hz, hfs]
      | some B => simp [hz, hfs, h]

/-! ## Per-line behaviour of the passes -/

theorem replaceImageLinkLine_of_none (env : Env) (d : ImgDict) (line : Str)
    (h : GetImageInfo env line = .none) :
    replaceImageLinkLine env d line = (d, line) := by
  unfold replaceImageLinkLine
  rw [h]

theorem replaceImageLinkLine_of_internal (env : Env) (d : ImgDict)
    (line lbl : Str) (h : GetImageInfo env line = .internal lbl) :
    replaceImageLinkLine env d line = (dictSet d lbl Option.none, line) := by
  unfold replaceImageLinkLine
  rw [h]

theorem replaceImageLinkLine_extRef (env : Env) (d : ImgDict)
    (alt path : Str) (B : Bytes)
    (ha : tokOK alt = true) (hp : tokOK path = true) (hne : path ≠ [])
    (hfs : alookup (resolvePath env path) env.fs = some B)
    (hext : (splitextP (basenameP path)).2 ∈ allowedExts) :
    replaceImageLinkLine env d (extRef alt path ++ ['\n']) =
      (dictSet d (labelOf B)
        (some (resolvePath env path, (splitextP (basenameP path)).2)),
       intRef (labelOf B) (labelOf B) ++ ['\n']) := by
  obtain ⟨-, -, hra, -, -, -, -⟩ := tokOK_spec alt ha
  obtain ⟨-, -, -, -, hpp, -, -⟩ := tokOK_spec path hp
  unfold replaceImageLinkLine
  rw [GetImageInfo_extRef_valid env alt path B ha hp hne hfs hext]
  show (dictSet d (labelOf B)
      (some (resolvePath env path, (splitextP (basenameP path)).2)),
    subExternal ('!' :: '[' :: labelOf B ++ ']' :: '[' :: labelOf B ++ [']'])
      (extRef alt path ++ ['\n'])) = _
  rw [subExternal_extRef _ alt path hra hpp]
  simp [intRef]

theorem processOldDataLine_of_nodata (cfg : Config) (d : ImgDict) (line : Str)
    (h : searchData line = none) :
    processOldDataLine cfg d line = (d, line) := by
  unfold processOldDataLine
  rw [h]

theorem processOldDataLine_dataRef (cfg : Config) (d : ImgDict)
    (lbl rest : Str) (hl : ']' ∉ lbl) :
    processOldDataLine cfg d (dataRef lbl rest ++ ['\n']) =
      (if lbl.length = 0 then (d, dataRef lbl rest ++ ['\n'])
       else
        match alookup lbl d with
        | some v =>
          if cfg.useOldDataFlag then (dictErase d lbl, dataRef lbl rest ++ ['\n'])
          else if v.isSome then (d, []) else (d, dataRef lbl rest ++ ['\n'])
        | Option.none =>
          if !cfg.keepUselessDataFlag then (d, [])
          else (d, dataRef lbl rest ++ ['\n'])) := by
  unfold processOldDataLine
  rw [searchData_dataRef lbl rest _ hl]

/-! ## Substring facts for separator detection -/

theorem hasSub_single_of_not_mem (c : Char) :
    ∀ l : Str, c ∉ l → hasSub [c] l = false
  | [], _ => rfl
  | x :: xs, h => by
    have hx : ¬x = c := fun e => h (e ▸ List.mem_cons_self x xs)
    have hcx : ¬c = x := fun e => hx e.symm
    have : startsWithL [c] (x :: xs) = false := by simp [startsWithL, hcx]
    rw [hasSub, this]
    simpa using hasSub_single_of_not_mem c xs fun hm => h (List.mem_cons_of_mem x hm)

theorem hasSub_single_of_mem (c : Char) :
    ∀ l : Str, c ∈ l → hasSub [c] l = true
  | [], h => absurd h (List.not_mem_nil c)
  | x :: xs, h => by
    by_cases hx : x = c
    · have : startsWithL [c] (x :: xs) = true := by simp [startsWithL, hx]
      rw [hasSub, this]
      simp
    · rw [hasSub]
      have hxs : c ∈ xs := by
        rcases List.mem_cons.mp h with h' | h'
        · exact absurd h'.symm hx
        · exact h'
      rw [hasSub_single_of_mem c xs hxs]
      simp

theorem hasSub_crlf_of_no_cr (l : Str) (h : '\r' ∉ l) :
    hasSub ['\r', '\n'] l = false := by
  induction l with
  | nil => rfl
  | cons x xs ih =>
    have hx : ¬x = '\r' := fun e => h (e ▸ List.mem_cons_self x xs)
    have hcx : ¬('\r' = x) := fun e => hx e.symm
    have hst : startsWithL ['\r', '\n'] (x :: xs) = false := by
      simp [startsWithL, hcx]
    rw [hasSub, hst]
    simpa using ih fun hm => h (List.mem_cons_of_mem x hm)

/-! ## Chunking recovers the content -/

theorem chunksOfGo_flatten (n : Nat) (hn : 0 < n) :
    ∀ (fuel : Nat) (l : List α), l.length ≤ fuel →
      (chunksOfGo n fuel l).flatten = l
  | 0, l, h => by
    have : l = [] := List.length_eq_zero.mp (Nat.le_antisymm h (Nat.zero_le _))
    subst this; rfl
  | fuel + 1, [], _ => by
    cases n with
    | zero => rfl
    | succ m => rfl
  | fuel + 1, x :: xs, h => by
    cases n with
    | zero => exact absurd hn (by omega)
    | succ m =>
      have hstep : chunksOfGo (m + 1) (fuel + 1) (x :: xs) =
          (x :: xs).take (m + 1) :: chunksOfGo (m + 1) fuel ((x :: xs).drop (m + 1)) := rfl
      rw [hstep]
      rw [List.flatten_cons,
        chunksOfGo_flatten (m + 1) hn fuel ((x :: xs).drop (m + 1)) (by
          simp only [List.length_drop, List.length_cons] at h ⊢
          omega)]
      exact List.take_append_drop (m + 1) (x :: xs)

theorem chunksOf_flatten (n : Nat) (hn : 0 < n) (l : List α) :
    (chunksOf n l).flatten = l :=
  chunksOfGo_flatten n hn l.length l (Nat.le_refl _)

theorem not_mem_chunksOf (n : Nat) (hn : 0 < n) (l : Str) (c : Char)
    (h : c ∉ l) : ∀ ch ∈ chunksOf n l, c ∉ ch := by
  intro ch hch hc
  exact h (by
    rw [← chunksOf_flatten n hn l]
    exact List.mem_flatten.mpr ⟨ch, hch, hc⟩)

theorem exists_mem_chunksOf (n : Nat) (hn : 0 < n) (l : Str) (c : Char)
    (h : c ∈ l) : ∃ ch ∈ chunksOf n l, c ∈ ch := by
  rw [← chunksOf_flatten n hn l] at h
  exact List.mem_flatten.mp h

/-! ## Separator detection results -/

theorem getLinesepGo_no_sep :
    ∀ chunks : List Str, (∀ ch ∈ chunks, '\r' ∉ ch) →
      (∀ ch ∈ chunks, '\n' ∉ ch) → getLinesepGo chunks [] = []
  | [], _, _ => rfl
  | ch :: rest, hr, hn => by
    rw [getLinesepGo, hasSub_crlf_of_no_cr ch (hr ch (by simp)),
      hasSub_single_of_not_mem '\n' ch (hn ch (by simp)),
      hasSub_single_of_not_mem '\r' ch (hr ch (by simp))]
    simp only [if_false, Bool.false_eq_true, reduceIte]
    rw [if_neg (by decide)]
    exact getLinesepGo_no_sep rest
      (fun x hx => hr x (by simp [hx]))
      (fun x hx => hn x (by simp [hx]))

theorem getLinesepGo_lf :
    ∀ chunks : List Str, (∀ ch ∈ chunks, '\r' ∉ ch) →
      (∃ ch ∈ chunks, '\n' ∈ ch) → getLinesepGo chunks [] = ['\n']
  | [], _, hn => by
    rcases hn with ⟨ch, hch, _⟩
    exact absurd hch (List.not_mem_nil ch)
  | ch :: rest, hr, hn => by
    rw [getLinesepGo, hasSub_crlf_of_no_cr ch (hr ch (by simp))]
    by_cases hin : '\n' ∈ ch
    · rw [hasSub_single_of_mem '\n' ch hin]
      simp
    · rw [hasSub_single_of_not_mem '\n' ch hin,
        hasSub_single_of_not_mem '\r' ch (hr ch (by simp))]
      simp only [if_false, Bool.false_eq_true, reduceIte]
      rw [if_neg (by decide)]
      refine getLinesepGo_lf rest (fun x hx => hr x (by simp [hx])) ?_
      rcases hn with ⟨ch', hch', hin'⟩
      rcases List.mem_cons.mp hch' with h' | h'
      · exact absurd (h' ▸ hin') hin
      · exact ⟨ch', h', hin'⟩

theorem GetLinesep_eq_nil (doc : Str) (hr : '\r' ∉ doc) (hn : '\n' ∉ doc) :
    GetLinesep doc = [] := by
  unfold GetLinesep
  exact getLinesepGo_no_sep _
    (not_mem_chunksOf 1024 (by omega) doc '\r' hr)
    (not_mem_chunksOf 1024 (by omega) doc '\n' hn)

theorem GetLinesep_eq_lf (doc : Str) (hr : '\r' ∉ doc) (hn : '\n' ∈ doc) :
    GetLinesep doc = ['\n'] := by
  unfold GetLinesep
  exact getLinesepGo_lf _
    (not_mem_chunksOf 1024 (by omega) doc '\r' hr)
    (exists_mem_chunksOf 1024 (by omega) doc '\n' hn)

theorem splitLinesGo_proper (body : Str) (rest : Str) :
    ∀ acc : Str, '\n' ∉ body →
      splitLinesGo (body ++ '\n' :: rest) acc =
        ((acc.reverse ++ body) ++ ['\n']) :: splitLinesGo rest [] := by
  induction body with
  | nil => intro acc _; simp [splitLinesGo]
  | cons c cs ih =>
    intro acc h
    have hc : ¬c = '\n' := fun e => h (e ▸ List.mem_cons_self c cs)
    rw [List.cons_append, splitLinesGo, if_neg hc,
      ih (c :: acc) fun hm => h (List.mem_cons_of_mem c hm)]
    simp

theorem splitLines_proper_cons (body rest : Str) (h : '\n' ∉ body) :
    splitLines (body ++ '\n' :: rest) = (body ++ ['\n']) :: splitLines rest := by
  unfold splitLines
  rw [splitLinesGo_proper body rest [] h]
  simp

theorem splitLines_flatten :
    ∀ lines : List Str, (∀ l ∈ lines, properLine l ∨ l = []) →
      splitLines lines.flatten = lines.filter fun l => !l.isEmpty
  | [], _ => rfl
  | l :: ls, h => by
    rcases h l (by simp) with hp | hp
    · rcases hp with ⟨body, rfl, hb⟩
      rw [List.flatten_cons, List.append_assoc, List.singleton_append,
        splitLines_proper_cons body ls.flatten hb,
        splitLines_flatten ls fun x hx => h x (by simp [hx])]
      have hne : (body ++ ['\n']).isEmpty = false := by simp
      simp [List.filter, hne]
    · subst hp
      rw [List.flatten_cons, List.nil_append,
        splitLines_flatten ls fun x hx => h x (by simp [hx])]
      simp [List.filter]

theorem foldl_pass1 (env : Env) :
    ∀ (lines : List Str) (d : ImgDict) (acc : Str),
      lines.foldl
        (fun a line =>
          let r := replaceImageLinkLine env a.1 line
          (r.1, a.2 ++ r.2)) (d, acc) =
      ((pass1Go env d lines).1, acc ++ (pass1Go env d lines).2.flatten)
  | [], d, acc => by simp [pass1Go]
  | l :: ls, d, acc => by
    rw [List.foldl_cons, pass1Go]
    rw [foldl_pass1 env ls (replaceImageLinkLine env d l).1
      (acc ++ (replaceImageLinkLine env d l).2)]
    simp

theorem ReplaceImageLink_eq (env : Env) (doc : Str) :
    ReplaceImageLink env doc =
      ((pass1Go env [] (splitLines doc)).1,
        (pass1Go env [] (splitLines doc)).2.flatten) := by
  unfold ReplaceImageLink
  rw [foldl_pass1 env (splitLines doc) [] []]
  simp

theorem foldl_pass2 (cfg : Config) :
    ∀ (lines : List Str) (d : ImgDict) (acc : Str),
      lines.foldl
        (fun a line =>
          let r := processOldDataLine cfg a.1 line
          (r.1, a.2 ++ r.2)) (d, acc) =
      ((pass2Go cfg d lines).1, acc ++ (pass2Go cfg d lines).2.flatten)
  | [], d, acc => by simp [pass2Go]
  | l :: ls, d, acc => by
    rw [List.foldl_cons, pass2Go]
    rw [foldl_pass2 cfg ls (processOldDataLine cfg d l).1
      (acc ++ (processOldDataLine cfg d l).2)]
    simp

theorem ProcessOldData_eq (cfg : Config) (d : ImgDict) (doc : Str) :
    ProcessOldData cfg d doc =
      ((pass2Go cfg d (splitLines doc)).1,
        (pass2Go cfg d (splitLines doc)).2.flatten) := by
  unfold ProcessOldData
  rw [foldl_pass2 cfg (splitLines doc) d []]
  simp

/-! ## Pass 2 with `useOldDataFlag` off never touches the dictionary -/

theorem processOldDataLine_dict (cfg : Config) (d : ImgDict) (line : Str)
    (h : cfg.useOldDataFlag = false) :
    (processOldDataLine cfg d line).1 = d := by
  unfold processOldDataLine
  cases hs : searchData line with
  | none => rfl
  | some lbl =>
    by_cases hz : lbl.length = 0
    · simp [hz]
    · simp only [if_neg hz]
      cases hd : alookup lbl d with
      | none => by_cases hk : cfg.keepUselessDataFlag <;> simp [hk]
      | some v =>
        by_cases hv : v.isSome <;> simp [h, hv]

theorem pass2Go_dict (cfg : Config) (h : cfg.useOldDataFlag = false) :
    ∀ (lines : List Str) (d : ImgDict), (pass2Go cfg d lines).1 = d
  | [], d => rfl
  | l :: ls, d => by
    rw [pass2Go]
    simp only [processOldDataLine_dict cfg d l h]
    exact pass2Go_dict cfg h ls d

/-! ## Pass 3 lemmas -/

theorem InsertNewData_all_none (env : Env) (linesep : Str) (n : Nat) :
    ∀ d : ImgDict, (∀ kv ∈ d, kv.2 = Option.none) →
      InsertNewData env linesep n d = []
  | [], _ => rfl
  | kv :: t, h => by
    obtain ⟨k, v⟩ := kv
    have hv : v = Option.none := h (k, v) (by simp)
    subst hv
    unfold InsertNewData
    simp only [List.map_cons, List.flatten_cons]
    have := InsertNewData_all_none env linesep n t fun x hx => h x (by simp [hx])
    unfold InsertNewData at this
    rw [this]
    rfl

theorem InsertNewData_mem_block (env : Env) (linesep : Str) (n : Nat)
    (d : ImgDict) (k a e : Str) (B : Bytes)
    (hmem : (k, some (a, e)) ∈ d) (hfs : alookup a env.fs = some B) :
    ∃ pre post, InsertNewData env linesep n d =
      pre ++ dataBlock linesep n k e B ++ post := by
  rcases List.append_of_mem hmem with ⟨u, v, rfl⟩
  refine ⟨(u.map fun kv =>
    match kv.2 with
    | Option.none => []
    | some (p, ext) =>
      match alookup p env.fs with
      | Option.none => []
      | some bytes => dataBlock linesep n kv.1 ext bytes).flatten,
    (v.map fun kv =>
    match kv.2 with
    | Option.none => []
    | some (p, ext) =>
      match alookup p env.fs with
      | Option.none => []
      | some bytes => dataBlock linesep n kv.1 ext bytes).flatten, ?_⟩
  unfold InsertNewData
  rw [List.map_append, List.map_cons, List.flatten_append, List.flatten_cons]
  rw [show (match (k, some (a, e)).2 with
    | Option.none => ([] : Str)
    | some (p, ext) =>
      match alookup p env.fs with
      | Option.none => []
      | some bytes => dataBlock linesep n (k, some (a, e)).1 ext bytes) =
      dataBlock linesep n k e B by rw [show (k, some (a, e)).2 = some (a, e) from rfl]; simp [hfs]]
  simp [List.append_assoc]

/-! ## Inversion of the classifier -/

theorem GetImageInfo_external_spec (env : Env) (line p a k e : Str)
    (h : GetImageInfo env line = .external p a k e) :
    a = resolvePath env p ∧ p ≠ [] ∧ e = (splitextP (basenameP p)).2 ∧
      e ∈ allowedExts ∧ ∃ B, alookup a env.fs = some B ∧ k = labelOf B := by
  unfold GetImageInfo at h
  by_cases h1 : hasImageRef line
  · simp only [h1, Bool.not_true, Bool.false_eq_true, if_false] at h
    cases h2 : searchInternal line with
    | some r =>
      obtain ⟨g1, g2⟩ := r
      rw [h2] at h
      exact absurd h (by simp)
    | none =>
      rw [h2] at h
      cases h3 : searchExternal line with
      | none => rw [h3] at h; exact absurd h (by simp)
      | some r =>
        obtain ⟨g1, g2⟩ := r
        rw [h3] at h
        by_cases h4 : g2.length = 0
        · simp [h4] at h
        · simp only [if_neg h4] at h
          cases h5 : alookup (resolvePath env g2) env.fs with
          | none => rw [h5] at h; simp at h
          | some B =>
            rw [h5] at h
            by_cases h6 : (splitextP (basenameP g2)).2 ∈ allowedExts
            · simp only [Option.isNone_some, Bool.false_eq_true, if_false,
                if_pos h6] at h
              rw [ImageInfo.external.injEq] at h
              obtain ⟨rfl, rfl, hk, rfl⟩ := h
              refine ⟨rfl, by simpa using h4, rfl, h6, B, h5, ?_⟩
              rw [← hk]
              simp [GetMd5Label, h5, labelOf]
            · simp [h6] at h
  · simp [h1] at h

theorem dictOK_nil (env : Env) : dictOK env [] := by
  intro k a e h
  simp [alookup] at h

theorem dictOK_set_none (env : Env) (d : ImgDict) (lbl : Str)
    (h : dictOK env d) : dictOK env (dictSet d lbl Option.none) := by
  intro k a e hk
  by_cases hkl : k = lbl
  · subst hkl
    rw [alookup_dictSet_self] at hk
    simp at hk
  · rw [alookup_dictSet_ne _ _ _ hkl] at hk
    exact h k a e hk

theorem dictOK_set_ext (env : Env) (d : ImgDict) (B : Bytes) (a e : Str)
    (ha : alookup a env.fs = some B) (he : e ∈ allowedExts)
    (h : dictOK env d) :
    dictOK env (dictSet d (labelOf B) (some (a, e))) := by
  intro k a' e' hk
  by_cases hkl : k = labelOf B
  · subst hkl
    rw [alookup_dictSet_self] at hk
    simp only [Option.some.injEq, Prod.mk.injEq] at hk
    obtain ⟨rfl, rfl⟩ := hk
    exact ⟨B, ha, rfl, he⟩
  · rw [alookup_dictSet_ne _ _ _ hkl] at hk
    exact h k a' e' hk

theorem replaceImageLinkLine_dictOK (env : Env) (d : ImgDict) (line : Str)
    (h : dictOK env d) :
    dictOK env (replaceImageLinkLine env d line).1 := by
  unfold replaceImageLinkLine
  cases hg : GetImageInfo env line with
  | none => exact h
  | internal lbl => exact dictOK_set_none env d lbl h
  | external p a k e =>
    obtain ⟨-, -, -, he, B, hB, rfl⟩ :=
      GetImageInfo_external_spec env line p a k e hg
    exact dictOK_set_ext env d B a e hB he h

theorem pass1Go_dictOK (env : Env) :
    ∀ (lines : List Str) (d : ImgDict), dictOK env d →
      dictOK env (pass1Go env d lines).1
  | [], _, h => h
  | l :: ls, d, h =>
    pass1Go_dictOK env ls _ (replaceImageLinkLine_dictOK env d l h)

theorem ReplaceImageLink_dictOK (env : Env) (doc : Str) :
    dictOK env (ReplaceImageLink env doc).1 := by
  rw [ReplaceImageLink_eq]
  exact pass1Go_dictOK env (splitLines doc) [] (dictOK_nil env)

theorem not_mem_aerase (k : Str) (v' : β) :
    ∀ d : List (Str × β), (k, v') ∉ aerase k d
  | [] => by simp [aerase]
  | (a, b) :: t => by
    by_cases ha : a = k
    · simpa [aerase, ha] using not_mem_aerase k v' t
    · simp only [aerase, if_neg ha, List.mem_cons]
      rintro (hpair | hm)
      · exact ha (congrArg Prod.fst hpair).symm
      · exact not_mem_aerase k v' t hm

theorem repeatN_nil : ∀ n, repeatN [] n = []
  | 0 => rfl
  | n + 1 => by simp [repeatN, repeatN_nil n]

theorem dataBlock_nil_sep (n : Nat) (lbl ext : Str) (bytes : Bytes) :
    dataBlock [] n lbl ext bytes =
      '[' :: lbl ++ "]:data:image/".data ++ ext ++ ";base64,".data ++
        encodeB64 bytes := by
  simp [dataBlock, repeatN_nil]

/-! # Claims -/

/-- C5: every label in the pass-1 mapping that is paired with a file equals
the first 8 hex characters of the MD5 of that file's bytes; consequently two
external references resolving to files with identical byte content receive
the same label. -/
theorem claim_C5 (env : Env) (doc : Str) :
    (∀ k a e, alookup k (ReplaceImageLink env doc).1 = some (some (a, e)) →
      ∃ B, alookup a env.fs = some B ∧ k = (md5hex B).take 8) ∧
    (∀ l1 l2 p1 a1 k1 e1 p2 a2 k2 e2,
      GetImageInfo env l1 = .external p1 a1 k1 e1 →
      GetImageInfo env l2 = .external p2 a2 k2 e2 →
      alookup a1 env.fs = alookup a2 env.fs → k1 = k2) := by
  constructor
  · intro k a e hk
    obtain ⟨B, hB, hkB, -⟩ := ReplaceImageLink_dictOK env doc k a e hk
    exact ⟨B, hB, hkB⟩
  · intro l1 l2 p1 a1 k1 e1 p2 a2 k2 e2 h1 h2 heq
    obtain ⟨-, -, -, -, B1, hB1, rfl⟩ :=
      GetImageInfo_external_spec env l1 _ _ _ _ h1
    obtain ⟨-, -, -, -, B2, hB2, rfl⟩ :=
      GetImageInfo_external_spec env l2 _ _ _ _ h2
    rw [hB1, hB2] at heq
    rw [Option.some.inj heq]

theorem claim_C5_witness :
    alookup "0cc175b9".data
        (ReplaceImageLink ⟨"/d".data, [("/d/i.png".data, [97])]⟩
          "![a](i.png)\n".data).1 =
      some (some ("/d/i.png".data, ".png".data)) ∧
    ∃ B, alookup "/d/i.png".data
        (⟨"/d".data, [("/d/i.png".data, [97])]⟩ : Env).fs = some B ∧
      "0cc175b9".data = (md5hex B).take 8 :=
  ⟨by decide,
   (claim_C5 ⟨"/d".data, [("/d/i.png".data, [97])]⟩ "![a](i.png)\n".data).1
     "0cc175b9".data "/d/i.png".data ".png".data (by decide)⟩

/-- C6: pass 1 in embed mode on a canonical external-reference line records
label to (absolute path, extension) and rewrites `![alt](path)` into
`![label][label]`; on a canonical embedded-reference line it records
label to absent and leaves the line unchanged. -/
theorem claim_C6 (env : Env) (d : ImgDict) (alt path lbl : Str) (B : Bytes)
    (ha : tokOK alt = true) (hp : tokOK path = true) (hl : tokOK lbl = true)
    (hne : path ≠ [])
    (hfs : alookup (resolvePath env path) env.fs = some B)
    (hext : (splitextP (basenameP path)).2 ∈ allowedExts) :
    replaceImageLinkLine env d (extRef alt path ++ ['\n']) =
      (dictSet d ((md5hex B).take 8)
        (some (resolvePath env path, (splitextP (basenameP path)).2)),
       intRef ((md5hex B).take 8) ((md5hex B).take 8) ++ ['\n']) ∧
    replaceImageLinkLine env d (intRef alt lbl ++ ['\n']) =
      (dictSet d lbl Option.none, intRef alt lbl ++ ['\n']) :=
  ⟨replaceImageLinkLine_extRef env d alt path B ha hp hne hfs hext,
   replaceImageLinkLine_of_internal env d _ lbl
     (GetImageInfo_intRef env alt lbl ha hl)⟩

theorem claim_C6_witness :
    tokOK "a".data = true ∧
    replaceImageLinkLine ⟨"/d".data, [("/d/i.png".data, [97])]⟩ []
        (extRef "a".data "i.png".data ++ ['\n']) =
      (dictSet [] ((md5hex [97]).take 8)
        (some (resolvePath ⟨"/d".data, [("/d/i.png".data, [97])]⟩ "i.png".data,
          (splitextP (basenameP "i.png".data)).2)),
       intRef ((md5hex [97]).take 8) ((md5hex [97]).take 8) ++ ['\n']) ∧
    replaceImageLinkLine ⟨"/d".data, [("/d/i.png".data, [97])]⟩ []
        (intRef "a".data "lbl0".data ++ ['\n']) =
      (dictSet [] "lbl0".data Option.none, intRef "a".data "lbl0".data ++ ['\n']) := by
  refine ⟨by decide, ?_, ?_⟩
  · exact (claim_C6 ⟨"/d".data, [("/d/i.png".data, [97])]⟩ [] "a".data
      "i.png".data "lbl0".data [97] (by decide) (by decide) (by decide)
      (by decide) (by decide) (by decide)).1
  · exact (claim_C6 ⟨"/d".data, [("/d/i.png".data, [97])]⟩ [] "a".data
      "i.png".data "lbl0".data [97] (by decide) (by decide) (by decide)
      (by decide) (by decide) (by decide)).2

/-- C7: with `useOldDataFlag` on, a data-block line whose non-empty label is
in the mapping is kept verbatim and the label is removed from the mapping,
so no entry for that label remains for the data appender. -/
theorem claim_C7 (cfg : Config) (d : ImgDict) (lbl rest : Str)
    (v : Option (Str × Str))
    (hu : cfg.useOldDataFlag = true) (hl : ']' ∉ lbl) (hne : lbl ≠ [])
    (hd : alookup lbl d = some v) :
    processOldDataLine cfg d (dataRef lbl rest ++ ['\n']) =
      (dictErase d lbl, dataRef lbl rest ++ ['\n']) ∧
    alookup lbl (dictErase d lbl) = none ∧
    ∀ v', (lbl, v') ∉ dictErase d lbl := by
  refine ⟨?_, alookup_aerase_self lbl d, fun v' => not_mem_aerase lbl v' d⟩
  rw [processOldDataLine_dataRef cfg d lbl rest hl]
  rw [if_neg (by simpa [List.length_eq_zero] using hne), hd]
  simp [hu]

theorem claim_C7_witness :
    (Config.useOldDataFlag ⟨20, true, false⟩ = true) ∧
    processOldDataLine ⟨20, true, false⟩ [("l1".data, Option.none)]
        (dataRef "l1".data "/.png;base64,YQ==".data ++ ['\n']) =
      (dictErase [("l1".data, Option.none)] "l1".data,
       dataRef "l1".data "/.png;base64,YQ==".data ++ ['\n']) ∧
    alookup "l1".data (dictErase [("l1".data, Option.none)] "l1".data) = none :=
  ⟨by decide,
   (claim_C7 ⟨20, true, false⟩ [("l1".data, Option.none)] "l1".data
     "/.png;base64,YQ==".data Option.none rfl (by decide) (by decide)
     (by decide)).1,
   (claim_C7 ⟨20, true, false⟩ [("l1".data, Option.none)] "l1".data
     "/.png;base64,YQ==".data Option.none rfl (by decide) (by decide)
     (by decide)).2.1⟩

/-- C8: with `keepUselessDataFlag` off, a data-block line whose non-empty
label is absent from the mapping is dropped by pass 2; on a document
consisting of that block the final document is empty. -/
theorem claim_C8 (cfg : Config) (d : ImgDict) (lbl rest : Str)
    (hk : cfg.keepUselessDataFlag = false) (hl : ']' ∉ lbl) (hne : lbl ≠ [])
    (hnl : '\n' ∉ lbl) (hnr : '\n' ∉ rest)
    (hd : alookup lbl d = none) :
    processOldDataLine cfg d (dataRef lbl rest ++ ['\n']) = (d, []) ∧
    ProcessOldData cfg d (dataRef lbl rest ++ ['\n']) = (d, []) := by
  have hline : processOldDataLine cfg d (dataRef lbl rest ++ ['\n']) = (d, []) := by
    rw [processOldDataLine_dataRef cfg d lbl rest hl]
    rw [if_neg (by simpa [List.length_eq_zero] using hne), hd, if_pos (by simp [hk])]
  refine ⟨hline, ?_⟩
  have hshape : dataRef lbl rest =
      '[' :: (lbl ++ ']' :: (":data:image".data ++ rest)) := by simp [dataRef]
  have hnb : '\n' ∉ dataRef lbl rest := by
    intro hm
    rw [hshape] at hm
    rcases List.mem_cons.mp hm with h | h
    · exact absurd h (by decide)
    rcases List.mem_append.mp h with h | h
    · exact hnl h
    rcases List.mem_cons.mp h with h | h
    · exact absurd h (by decide)
    rcases List.mem_append.mp h with h | h
    · exact absurd h (by decide)
    · exact hnr h
  have hsplit : splitLines (dataRef lbl rest ++ ['\n']) =
      [dataRef lbl rest ++ ['\n']] := by
    have := splitLines_proper_cons (dataRef lbl rest) [] hnb
    simpa using this
  rw [ProcessOldData_eq, hsplit]
  simp [pass2Go, hline]

theorem claim_C8_witness :
    Config.keepUselessDataFlag {} = false ∧
    alookup "zz".data ([] : ImgDict) = none ∧
    processOldDataLine {} [] (dataRef "zz".data "/.png;base64,AA==".data ++ ['\n']) =
      ([], []) ∧
    ProcessOldData {} [] (dataRef "zz".data "/.png;base64,AA==".data ++ ['\n']) =
      ([], []) :=
  ⟨rfl, rfl,
   (claim_C8 {} [] "zz".data "/.png;base64,AA==".data rfl (by decide)
     (by decide) (by decide) (by decide) rfl).1,
   (claim_C8 {} [] "zz".data "/.png;base64,AA==".data rfl (by decide)
     (by decide) (by decide) (by decide) rfl).2⟩

/-- C9 (amended): a line matching the parenthesized-path shape but neither
the bracketed-label shape nor the data-block shape, whose resolved path does
not exist or whose extension is not allow-listed, is classified `none` and
passes through every pass of both actions unchanged.  (As stated,
the claim fails when the line also matches one of the other two shapes:
see the counterexample.) -/
theorem claim_C9 (env : Env) (cfg : Config) (d : ImgDict)
    (line alt path : Str)
    (hint : searchInternal line = none)
    (hdata : searchData line = none)
    (hext : searchExternal line = some (alt, path))
    (hinv : path = [] ∨ alookup (resolvePath env path) env.fs = none ∨
      (splitextP (basenameP path)).2 ∉ allowedExts) :
    GetImageInfo env line = .none ∧
    replaceImageLinkLine env d line = (d, line) ∧
    replaceNameOnlyLine env line = (env, some line) ∧
    processOldDataLine cfg d line = (d, line) := by
  have hgi : GetImageInfo env line = .none := by
    unfold GetImageInfo
    by_cases h1 : hasImageRef line
    · simp only [h1, Bool.not_true, Bool.false_eq_true, if_false]
      rw [hint, hext]
      rcases hinv with h | h | h
      · simp [h]
      · by_cases hz : path = []
        · simp [hz]
        · simp [List.length_eq_zero, hz, h]
      · by_cases hz : path = []
        · simp [hz]
        · cases hfs : alookup (resolvePath env path) env.fs <;>
            simp [List.length_eq_zero, hz, hfs, h]
    · simp [h1]
  refine ⟨hgi, replaceImageLinkLine_of_none env d line hgi, ?_,
    processOldDataLine_of_nodata cfg d line hdata⟩
  unfold replaceNameOnlyLine
  rw [hgi]

theorem claim_C9_witness :
    searchInternal "![a](nope.png)\n".data = none ∧
    searchExternal "![a](nope.png)\n".data = some ("a".data, "nope.png".data) ∧
    alookup (resolvePath ⟨"/d".data, []⟩ "nope.png".data)
      (⟨"/d".data, []⟩ : Env).fs = none ∧
    GetImageInfo ⟨"/d".data, []⟩ "![a](nope.png)\n".data = .none ∧
    replaceImageLinkLine ⟨"/d".data, []⟩ [] "![a](nope.png)\n".data =
      ([], "![a](nope.png)\n".data) ∧
    replaceNameOnlyLine ⟨"/d".data, []⟩ "![a](nope.png)\n".data =
      (⟨"/d".data, []⟩, some "![a](nope.png)\n".data) ∧
    processOldDataLine {} [] "![a](nope.png)\n".data =
      ([], "![a](nope.png)\n".data) := by
  have h := claim_C9 ⟨"/d".data, []⟩ {} [] "![a](nope.png)\n".data
    "a".data "nope.png".data (by decide) (by decide) (by decide)
    (Or.inr (Or.inl (by decide)))
  exact ⟨by decide, by decide, by decide, h.1, h.2.1, h.2.2.1, h.2.2.2⟩

/-- C9 as stated is false: a line matching the parenthesized-path shape with
a missing target can still classify as an embedded reference (the
bracketed-label pattern is tried first), and a line matching it can also
match the data-block shape and then be deleted by pass 2 rather than passed
through unchanged. -/
theorem claim_C9_counterexample :
    (searchExternal "![x][y] ![c](m.png)\n".data).isSome = true ∧
    alookup (resolvePath ⟨"/d".data, []⟩ "m.png".data)
      (⟨"/d".data, []⟩ : Env).fs = none ∧
    GetImageInfo ⟨"/d".data, []⟩ "![x][y] ![c](m.png)\n".data =
      .internal "y".data ∧
    (searchExternal "![a](p[b]:data:imagez)\n".data).isSome = true ∧
    GetImageInfo ⟨"/d".data, []⟩ "![a](p[b]:data:imagez)\n".data = .none ∧
    processOldDataLine {} [] "![a](p[b]:data:imagez)\n".data = ([], []) := by
  decide

/-- C10: a document with no separator character at all detects the empty
separator; the data appender then prepends zero blank lines and writes each
block with no terminator, concatenating blocks directly onto the end of the
document. -/
theorem claim_C10 (env : Env) (cfg : Config) (doc : Str)
    (h : ∀ c ∈ doc, c ≠ '\n' ∧ c ≠ '\r') :
    GetLinesep doc = [] ∧
    EncodeImageInDocument env cfg doc =
      (ProcessOldData cfg (ReplaceImageLink env doc).1
        (ReplaceImageLink env doc).2).2 ++
      ((ProcessOldData cfg (ReplaceImageLink env doc).1
        (ReplaceImageLink env doc).2).1.map fun kv =>
          match kv.2 with
          | Option.none => []
          | some (p, ext) =>
            match alookup p env.fs with
            | Option.none => []
            | some bytes =>
              '[' :: kv.1 ++ "]:data:image/".data ++ ext ++ ";base64,".data ++
                encodeB64 bytes).flatten := by
  have hr : '\r' ∉ doc := fun hm => (h _ hm).2 rfl
  have hn : '\n' ∉ doc := fun hm => (h _ hm).1 rfl
  have hsep := GetLinesep_eq_nil doc hr hn
  refine ⟨hsep, ?_⟩
  show (ProcessOldData cfg (ReplaceImageLink env doc).1
      (ReplaceImageLink env doc).2).2 ++
    InsertNewData env (GetLinesep doc) cfg.spacelines
      (ProcessOldData cfg (ReplaceImageLink env doc).1
        (ReplaceImageLink env doc).2).1 = _
  rw [hsep]
  congr 1
  unfold InsertNewData
  refine congrArg List.flatten (List.map_congr_left fun kv _ => ?_)
  cases hv : kv.2 with
  | none => rfl
  | some pe =>
    obtain ⟨p, ext⟩ := pe
    cases hfs : alookup p env.fs with
    | none => simp [hfs]
    | some bytes => simp [hfs, dataBlock_nil_sep]

theorem claim_C10_witness :
    (∀ c ∈ "![a](i.png)".data, c ≠ '\n' ∧ c ≠ '\r') ∧
    (GetLinesep "![a](i.png)".data = [] ∧
    EncodeImageInDocument ⟨"/d".data, [("/d/i.png".data, [97])]⟩ {}
        "![a](i.png)".data =
      (ProcessOldData {} (ReplaceImageLink ⟨"/d".data, [("/d/i.png".data, [97])]⟩
          "![a](i.png)".data).1
        (ReplaceImageLink ⟨"/d".data, [("/d/i.png".data, [97])]⟩
          "![a](i.png)".data).2).2 ++
      ((ProcessOldData {} (ReplaceImageLink ⟨"/d".data, [("/d/i.png".data, [97])]⟩
          "![a](i.png)".data).1
        (ReplaceImageLink ⟨"/d".data, [("/d/i.png".data, [97])]⟩
          "![a](i.png)".data).2).1.map fun kv =>
          match kv.2 with
          | Option.none => []
          | some (p, ext) =>
            match alookup p (⟨"/d".data, [("/d/i.png".data, [97])]⟩ : Env).fs with
            | Option.none => []
            | some bytes =>
              '[' :: kv.1 ++ "]:data:image/".data ++ ext ++ ";base64,".data ++
                encodeB64 bytes).flatten) :=
  ⟨by decide,
   claim_C10 ⟨"/d".data, [("/d/i.png".data, [97])]⟩ {} "![a](i.png)".data
     (by decide)⟩

/-- C2 is a code bug: in the `EncodeNameOnly` action a line whose external
path is shorter than 12 characters is neither renamed nor rewritten, but the
`continue` in the source skips the `print` that writes the line back under
`fileinput` in-place editing, so the line is deleted from the document
instead of being left unmodified.  Here `![a](i.png)` (path length 5, file
present) produces an empty output document while the filesystem is
untouched. -/
theorem claim_C2_bug :
    EncodeImageFileName ⟨"/d".data, [("/d/i.png".data, [97])]⟩
        "![a](i.png)\n".data =
      (⟨"/d".data, [("/d/i.png".data, [97])]⟩, []) := by
  decide

theorem alookup_mem (k : Str) (v : β) :
    ∀ d : List (Str × β), alookup k d = some v → (k, v) ∈ d
  | [], h => by simp [alookup] at h
  | (a, b) :: t, h => by
    by_cases ha : a = k
    · subst ha
      simp only [alookup, if_true, eq_self_iff_true, if_pos] at h
      simp [alookup] at h
      simp [h]
    · simp only [alookup, if_neg ha] at h
      exact List.mem_cons_of_mem _ (alookup_mem k v t h)

/-- C1 (amended): when the pass-1 mapping still pairs label `k` with file
`a` of content `B` (no later embedded reference re-registered the label),
the embed action with `useOldDataFlag` off appends a data block for `k`
whose payload is the base64 encoding of `B`, and that payload decodes back
to exactly `B`. -/
theorem claim_C1 (env : Env) (cfg : Config) (doc : Str) (k a e : Str)
    (B : Bytes)
    (hflags : cfg.useOldDataFlag = false)
    (hbytes : ∀ b ∈ B, b < 256)
    (hdict : alookup k (ReplaceImageLink env doc).1 = some (some (a, e)))
    (hfs : alookup a env.fs = some B) :
    ∃ pre post,
      EncodeImageInDocument env cfg doc =
        pre ++ dataBlock (GetLinesep doc) cfg.spacelines k e B ++ post ∧
      decodeB64 (encodeB64 B) = some B := by
  have hd2 : (ProcessOldData cfg (ReplaceImageLink env doc).1
      (ReplaceImageLink env doc).2).1 = (ReplaceImageLink env doc).1 := by
    rw [ProcessOldData_eq]
    exact pass2Go_dict cfg hflags _ _
  have hmem : (k, some (a, e)) ∈ (ProcessOldData cfg (ReplaceImageLink env doc).1
      (ReplaceImageLink env doc).2).1 := by
    rw [hd2]
    exact alookup_mem k _ _ hdict
  obtain ⟨pre, post, hblock⟩ := InsertNewData_mem_block env (GetLinesep doc)
    cfg.spacelines _ k a e B hmem hfs
  refine ⟨(ProcessOldData cfg (ReplaceImageLink env doc).1
      (ReplaceImageLink env doc).2).2 ++ pre, post, ?_,
    decodeB64_encodeB64 B hbytes⟩
  show (ProcessOldData cfg (ReplaceImageLink env doc).1
      (ReplaceImageLink env doc).2).2 ++
    InsertNewData env (GetLinesep doc) cfg.spacelines
      (ProcessOldData cfg (ReplaceImageLink env doc).1
        (ReplaceImageLink env doc).2).1 = _
  rw [hblock]
  simp [List.append_assoc]

/-- C1 as stated is false: the document below contains an external reference
to the existing file `/d/i.png` with content `[97]` whose label is
`0cc175b9`, yet a later embedded reference `![x][0cc175b9]` re-registers the
label with no source, so the embed action appends no data block at all: the
output is exactly the two rewritten reference lines. -/
theorem claim_C1_counterexample :
    GetImageInfo ⟨"/d".data, [("/d/i.png".data, [97])]⟩ "![a](i.png)\n".data =
      .external "i.png".data "/d/i.png".data "0cc175b9".data ".png".data ∧
    alookup "/d/i.png".data
      (⟨"/d".data, [("/d/i.png".data, [97])]⟩ : Env).fs = some [97] ∧
    alookup "0cc175b9".data
      (ReplaceImageLink ⟨"/d".data, [("/d/i.png".data, [97])]⟩
        "![a](i.png)\n![x][0cc175b9]\n".data).1 = some Option.none ∧
    EncodeImageInDocument ⟨"/d".data, [("/d/i.png".data, [97])]⟩ {}
        "![a](i.png)\n![x][0cc175b9]\n".data =
      "![0cc175b9][0cc175b9]\n![x][0cc175b9]\n".data := by
  decide

theorem claim_C1_witness :
    alookup "0cc175b9".data
        (ReplaceImageLink ⟨"/d".data, [("/d/i.png".data, [97])]⟩
          "![a](i.png)\n".data).1 =
      some (some ("/d/i.png".data, ".png".data)) ∧
    ∃ pre post,
      EncodeImageInDocument ⟨"/d".data, [("/d/i.png".data, [97])]⟩ {}
          "![a](i.png)\n".data =
        pre ++ dataBlock (GetLinesep "![a](i.png)\n".data) 20 "0cc175b9".data
          ".png".data [97] ++ post ∧
      decodeB64 (encodeB64 [97]) = some [97] :=
  ⟨by decide,
   claim_C1 ⟨"/d".data, [("/d/i.png".data, [97])]⟩ {} "![a](i.png)\n".data
     "0cc175b9".data "/d/i.png".data ".png".data [97] rfl (by decide)
     (by decide) (by decide)⟩

/-! ## Appending the terminator does not change what the patterns match -/

theorem splitAtChar_append_char (c x : Char) (hx : ¬x = c) :
    ∀ l : Str, splitAtChar c (l ++ [x]) =
      match splitAtChar c l with
      | some (p, q) => some (p, q ++ [x])
      | none => none
  | [] => by simp [splitAtChar, hx]
  | y :: ys => by
    by_cases hy : y = c
    · subst hy
      simp [splitAtChar]
    · have ih := splitAtChar_append_char c x hx ys
      cases hs : splitAtChar c ys with
      | none =>
        rw [hs] at ih
        simp [splitAtChar, hy, ih, hs]
      | some pq =>
        obtain ⟨p, q⟩ := pq
        rw [hs] at ih
        simp [splitAtChar, hy, ih, hs]

theorem matchImageAt_append_lf :
    ∀ l : Str, matchImageAt (l ++ ['\n']) = matchImageAt l
  | [] => rfl
  | [c] => by simp [matchImageAt]
  | c1 :: c2 :: rest => by
    have hsp := splitAtChar_append_char ']' '\n' (by decide) rest
    cases hs : splitAtChar ']' rest with
    | none =>
      rw [hs] at hsp
      simp [matchImageAt, hsp, hs]
    | some pq =>
      obtain ⟨p, q⟩ := pq
      rw [hs] at hsp
      simp [matchImageAt, hsp, hs]

theorem hasImageRef_append_lf :
    ∀ l : Str, hasImageRef (l ++ ['\n']) = hasImageRef l
  | [] => rfl
  | c :: cs => by
    rw [List.cons_append, hasImageRef, ← List.cons_append,
      matchImageAt_append_lf (c :: cs), hasImageRef,
      hasImageRef_append_lf cs]

theorem matchInternalAt_append_lf :
    ∀ l : Str, matchInternalAt (l ++ ['\n']) = matchInternalAt l
  | [] => rfl
  | [c] => by simp [matchInternalAt]
  | c1 :: c2 :: rest => by
    have hsp := splitAtChar_append_char ']' '\n' (by decide) rest
    cases hs : splitAtChar ']' rest with
    | none =>
      rw [hs] at hsp
      simp [matchInternalAt, hsp, hs]
    | some pq =>
      obtain ⟨g1, rest2⟩ := pq
      rw [hs] at hsp
      cases rest2 with
      | nil => simp [matchInternalAt, hsp, hs]
      | cons c3 rest3 =>
        have hsp2 := splitAtChar_append_char ']' '\n' (by decide) rest3
        cases hs2 : splitAtChar ']' rest3 with
        | none =>
          rw [hs2] at hsp2
          simp [matchInternalAt, hsp, hs, hsp2, hs2]
        | some pq2 =>
          obtain ⟨g2, q2⟩ := pq2
          rw [hs2] at hsp2
          simp [matchInternalAt, hsp, hs, hsp2, hs2]

theorem searchInternal_append_lf :
    ∀ l : Str, searchInternal (l ++ ['\n']) = searchInternal l
  | [] => by
    show searchInternal ['\n'] = none
    rw [searchInternal, matchInternalAt_ne_bang '\n' [] (by decide)]
    rfl
  | c :: cs => by
    rw [List.cons_append, searchInternal, ← List.cons_append,
      matchInternalAt_append_lf (c :: cs), searchInternal]
    cases matchInternalAt (c :: cs) with
    | none => exact searchInternal_append_lf cs
    | some r => rfl

theorem matchExternalAt_append_lf :
    ∀ l : Str, matchExternalAt (l ++ ['\n']) =
      match matchExternalAt l with
      | some (g1, g2, r) => some (g1, g2, r ++ ['\n'])
      | none => none
  | [] => rfl
  | [c] => by simp [matchExternalAt]
  | c1 :: c2 :: rest => by
    have hsp := splitAtChar_append_char ']' '\n' (by decide) rest
    cases hs : splitAtChar ']' rest with
    | none =>
      rw [hs] at hsp
      simp [matchExternalAt, hsp, hs]
    | some pq =>
      obtain ⟨g1, rest2⟩ := pq
      rw [hs] at hsp
      cases rest2 with
      | nil => simp [matchExternalAt, hsp, hs]
      | cons c3 rest3 =>
        have hsp2 := splitAtChar_append_char ')' '\n' (by decide) rest3
        cases hs2 : splitAtChar ')' rest3 with
        | none =>
          rw [hs2] at hsp2
          simp [matchExternalAt, hsp, hs, hsp2, hs2]
        | some pq2 =>
          obtain ⟨g2, q2⟩ := pq2
          rw [hs2] at hsp2
          simp only [matchExternalAt, hsp, hs, hsp2, hs2, List.cons_append]
          by_cases h1 : c1 = '!' ∧ c2 = '[' <;>
            by_cases h2 : c3 = '(' <;> simp [h1, h2]

theorem searchExternal_append_lf :
    ∀ l : Str, searchExternal (l ++ ['\n']) = searchExternal l
  | [] => by
    show searchExternal ['\n'] = none
    rw [searchExternal, matchExternalAt_ne_bang '\n' [] (by decide)]
    rfl
  | c :: cs => by
    rw [List.cons_append, searchExternal, ← List.cons_append,
      matchExternalAt_append_lf (c :: cs), searchExternal]
    cases matchExternalAt (c :: cs) with
    | none => exact searchExternal_append_lf cs
    | some r => obtain ⟨g1, g2, r⟩ := r; rfl

theorem GetImageInfo_append_lf (env : Env) (body : Str) :
    GetImageInfo env (body ++ ['\n']) = GetImageInfo env body := by
  unfold GetImageInfo
  rw [hasImageRef_append_lf body, searchInternal_append_lf body,
    searchExternal_append_lf body]

theorem matchExternalAt_length :
    ∀ l g1 g2 r : Str, matchExternalAt l = some (g1, g2, r) →
      l.length = g1.length + g2.length + 5 + r.length
  | [], g1, g2, r, h => by simp [matchExternalAt] at h
  | [c], g1, g2, r, h => by
    have : matchExternalAt [c] = none := rfl
    rw [this] at h
    exact absurd h (by simp)
  | c1 :: c2 :: rest, g1, g2, r, h => by
    simp only [matchExternalAt] at h
    by_cases hc : c1 = '!' ∧ c2 = '['
    · rw [if_pos hc] at h
      cases hs : splitAtChar ']' rest with
      | none => rw [hs] at h; simp at h
      | some pq =>
        obtain ⟨ga, rest2⟩ := pq
        rw [hs] at h
        obtain ⟨hrest, -⟩ := splitAtChar_eq_some hs
        cases rest2 with
        | nil => simp at h
        | cons c3 rest3 =>
          by_cases h3 : c3 = '('
          · simp only [if_pos h3] at h
            cases hs2 : splitAtChar ')' rest3 with
            | none => rw [hs2] at h; simp at h
            | some pq2 =>
              obtain ⟨gb, q2⟩ := pq2
              rw [hs2] at h
              obtain ⟨hrest3, -⟩ := splitAtChar_eq_some hs2
              simp only [Option.some.injEq, Prod.mk.injEq] at h
              obtain ⟨rfl, rfl, rfl⟩ := h
              subst hrest
              subst hrest3
              simp
              omega
          · simp only [if_neg h3] at h; exact absurd h (by simp)
    · rw [if_neg hc] at h; exact absurd h (by simp)

theorem subExternalGo_fuel (repl : Str) :
    ∀ (l : Str) (f : Nat), l.length ≤ f →
      subExternalGo repl f l = subExternalGo repl l.length l := by
  suffices H : ∀ (n : Nat) (l : Str), l.length ≤ n → ∀ f, l.length ≤ f →
      subExternalGo repl f l = subExternalGo repl l.length l by
    intro l f hf
    exact H l.length l (Nat.le_refl _) f hf
  intro n
  induction n with
  | zero =>
    intro l hl f _
    have : l = [] := List.length_eq_zero.mp (Nat.le_antisymm hl (Nat.zero_le _))
    subst this
    rw [subExternalGo_nil, subExternalGo_nil]
  | succ m ih =>
    intro l hl f hf
    cases l with
    | nil => rw [subExternalGo_nil, subExternalGo_nil]
    | cons c cs =>
      obtain ⟨f', rfl⟩ : ∃ f', f = f' + 1 := ⟨f - 1, by
        simp only [List.length_cons] at hf; omega⟩
      cases hm : matchExternalAt (c :: cs) with
      | some g =>
        obtain ⟨g1, g2, r⟩ := g
        have hlen := matchExternalAt_length _ _ _ _ hm
        simp only [List.length_cons] at hlen hl hf
        rw [subExternalGo_step_match repl f' c cs g1 g2 r hm,
          show (c :: cs).length = cs.length + 1 from rfl,
          subExternalGo_step_match repl cs.length c cs g1 g2 r hm]
        have hr : r.length ≤ m := by omega
        rw [ih r hr f' (by omega), ih r hr cs.length (by omega)]
      | none =>
        have hstep : ∀ ff, subExternalGo repl (ff + 1) (c :: cs) =
            c :: subExternalGo repl ff cs := by
          intro ff
          simp [subExternalGo, hm]
        rw [hstep f', show (c :: cs).length = cs.length + 1 from rfl,
          hstep cs.length]
        simp only [List.length_cons] at hl hf
        rw [ih cs (by omega) f' (by omega), ih cs (by omega) cs.length (by omega)]

theorem subExternal_append_lf (repl : Str) :
    ∀ body : Str,
      subExternal repl (body ++ ['\n']) = subExternal repl body ++ ['\n'] := by
  suffices H : ∀ (n : Nat) (body : Str), body.length ≤ n →
      subExternal repl (body ++ ['\n']) = subExternal repl body ++ ['\n'] by
    intro body
    exact H body.length body (Nat.le_refl _)
  intro n
  induction n with
  | zero =>
    intro body hl
    have : body = [] :=
      List.length_eq_zero.mp (Nat.le_antisymm hl (Nat.zero_le _))
    subst this
    show subExternal repl ['\n'] = [] ++ ['\n']
    unfold subExternal
    rw [subExternalGo_lf]
    rfl
  | succ m ih =>
    intro body hl
    cases body with
    | nil =>
      show subExternal repl ['\n'] = [] ++ ['\n']
      unfold subExternal
      rw [subExternalGo_lf]
      rfl
    | cons c cs =>
      unfold subExternal
      rw [show ((c :: cs) ++ ['\n']).length = cs.length + 1 + 1 by simp]
      rw [show (c :: cs) ++ ['\n'] = c :: (cs ++ ['\n']) from rfl]
      cases hm : matchExternalAt (c :: cs) with
      | some g =>
        obtain ⟨g1, g2, r⟩ := g
        have hms := matchExternalAt_append_lf (c :: cs)
        rw [hm] at hms
        rw [show (c :: cs) ++ ['\n'] = c :: (cs ++ ['\n']) from rfl] at hms
        have hlen := matchExternalAt_length _ _ _ _ hm
        simp only [List.length_cons] at hlen hl
        rw [subExternalGo_step_match repl (cs.length + 1) c (cs ++ ['\n'])
          g1 g2 (r ++ ['\n']) hms]
        rw [subExternalGo_fuel repl (r ++ ['\n']) (cs.length + 1) (by
          simp only [List.length_append, List.length_singleton]
          omega)]
        rw [show (r ++ ['\n']).length = r.length + 1 by simp]
        have hrec := ih r (by omega)
        unfold subExternal at hrec
        rw [show (r ++ ['\n']).length = r.length + 1 by simp] at hrec
        rw [hrec]
        rw [show (c :: cs).length = cs.length + 1 from rfl,
          subExternalGo_step_match repl cs.length c cs g1 g2 r hm]
        rw [subExternalGo_fuel repl r cs.length (by omega)]
        simp [List.append_assoc]
      | none =>
        have hms := matchExternalAt_append_lf (c :: cs)
        rw [hm] at hms
        rw [show (c :: cs) ++ ['\n'] = c :: (cs ++ ['\n']) from rfl] at hms
        have hstep1 : subExternalGo repl (cs.length + 1 + 1) (c :: (cs ++ ['\n'])) =
            c :: subExternalGo repl (cs.length + 1) (cs ++ ['\n']) := by
          simp [subExternalGo, hms]
        rw [hstep1]
        have hlen3 : subExternalGo repl (cs.length + 1) (cs ++ ['\n']) =
            subExternal repl (cs ++ ['\n']) := by
          unfold subExternal
          rw [show (cs ++ ['\n']).length = cs.length + 1 by simp]
        simp only [List.length_cons] at hl
        rw [hlen3, ih cs (by omega)]
        have hstep2 : subExternalGo repl ((c :: cs).length) (c :: cs) =
            c :: subExternalGo repl cs.length cs := by
          simp [subExternalGo, hm]
        rw [hstep2]
        unfold subExternal
        simp

/-- C4 (amended): the separator detected from the original document is used
for the margin and the terminator of every appended data block; the rewrite
passes instead emit each line with its own original terminator: pass 1's
rewrite preserves a trailing newline and pass 2 emits each line verbatim or
drops it.  (As stated the claim is false: pass 1 and 2 never apply the
detected separator to the lines they emit — see the counterexample, where a
CRLF is detected but a rewritten line keeps its bare-LF terminator.) -/
theorem claim_C4 :
    (∀ (env : Env) (d : ImgDict) (body : Str),
      (replaceImageLinkLine env d (body ++ ['\n'])).2 =
        (replaceImageLinkLine env d body).2 ++ ['\n']) ∧
    (∀ (cfg : Config) (d : ImgDict) (line : Str),
      (processOldDataLine cfg d line).2 = line ∨
        (processOldDataLine cfg d line).2 = []) ∧
    (∀ (env : Env) (cfg : Config) (doc : Str) (k a e : Str) (B : Bytes),
      cfg.useOldDataFlag = false →
      alookup k (ReplaceImageLink env doc).1 = some (some (a, e)) →
      alookup a env.fs = some B →
      ∃ pre post,
        EncodeImageInDocument env cfg doc =
          pre ++ (repeatN (GetLinesep doc) cfg.spacelines ++
            ('[' :: k ++ "]:data:image/".data ++ e ++ ";base64,".data ++
              encodeB64 B) ++ GetLinesep doc) ++ post) := by
  refine ⟨?_, ?_, ?_⟩
  · intro env d body
    unfold replaceImageLinkLine
    rw [GetImageInfo_append_lf env body]
    cases GetImageInfo env body with
    | none => rfl
    | internal lbl => rfl
    | external p a k e =>
      show subExternal _ (body ++ ['\n']) = subExternal _ body ++ ['\n']
      exact subExternal_append_lf _ body
  · intro cfg d line
    unfold processOldDataLine
    cases searchData line with
    | none => exact Or.inl rfl
    | some lbl =>
      by_cases hz : lbl.length = 0
      · simp [hz]
      · simp only [if_neg hz]
        cases alookup lbl d with
        | none => by_cases hk : cfg.keepUselessDataFlag <;> simp [hk]
        | some v =>
          by_cases hu : cfg.useOldDataFlag
          · simp [hu]
          · by_cases hv : v.isSome <;> simp [hu, hv]
  · intro env cfg doc k a e B hflags hdict hfs
    have hd2 : (ProcessOldData cfg (ReplaceImageLink env doc).1
        (ReplaceImageLink env doc).2).1 = (ReplaceImageLink env doc).1 := by
      rw [ProcessOldData_eq]
      exact pass2Go_dict cfg hflags _ _
    have hmem : (k, some (a, e)) ∈ (ProcessOldData cfg
        (ReplaceImageLink env doc).1 (ReplaceImageLink env doc).2).1 := by
      rw [hd2]
      exact alookup_mem k _ _ hdict
    obtain ⟨pre, post, hblock⟩ := InsertNewData_mem_block env (GetLinesep doc)
      cfg.spacelines _ k a e B hmem hfs
    refine ⟨(ProcessOldData cfg (ReplaceImageLink env doc).1
        (ReplaceImageLink env doc).2).2 ++ pre, post, ?_⟩
    show (ProcessOldData cfg (ReplaceImageLink env doc).1
        (ReplaceImageLink env doc).2).2 ++
      InsertNewData env (GetLinesep doc) cfg.spacelines
        (ProcessOldData cfg (ReplaceImageLink env doc).1
          (ReplaceImageLink env doc).2).1 = _
    rw [hblock]
    simp [dataBlock, List.append_assoc]

/-- C4 as stated is false: on a mixed-separator document the detected
separator is CRLF, yet pass 1 emits the rewritten first line with its
original bare-LF terminator (and not with the detected CRLF). -/
theorem claim_C4_counterexample :
    GetLinesep "![a](i.png)\nx\r\n".data = ['\r', '\n'] ∧
    (ReplaceImageLink ⟨"/d".data, [("/d/i.png".data, [97])]⟩
        "![a](i.png)\nx\r\n".data).2 =
      "![0cc175b9][0cc175b9]\nx\r\n".data ∧
    (splitLines (ReplaceImageLink ⟨"/d".data, [("/d/i.png".data, [97])]⟩
        "![a](i.png)\nx\r\n".data).2).head? =
      some "![0cc175b9][0cc175b9]\n".data ∧
    List.isSuffixOf ['\r', '\n'] "![0cc175b9][0cc175b9]\n".data = false := by
  decide

theorem claim_C4_witness :
    (replaceImageLinkLine ⟨"/d".data, [("/d/i.png".data, [97])]⟩ []
        ("![a](i.png)".data ++ ['\n'])).2 =
      (replaceImageLinkLine ⟨"/d".data, [("/d/i.png".data, [97])]⟩ []
        "![a](i.png)".data).2 ++ ['\n'] ∧
    ∃ pre post,
      EncodeImageInDocument ⟨"/d".data, [("/d/i.png".data, [97])]⟩ {}
          "![a](i.png)\n".data =
        pre ++ (repeatN (GetLinesep "![a](i.png)\n".data)
            ({} : Config).spacelines ++
          ('[' :: "0cc175b9".data ++ "]:data:image/".data ++ ".png".data ++
            ";base64,".data ++ encodeB64 [97]) ++
          GetLinesep "![a](i.png)\n".data) ++ post :=
  ⟨claim_C4.1 ⟨"/d".data, [("/d/i.png".data, [97])]⟩ [] "![a](i.png)".data,
   claim_C4.2.2 ⟨"/d".data, [("/d/i.png".data, [97])]⟩ {} "![a](i.png)\n".data
     "0cc175b9".data "/d/i.png".data ".png".data [97] rfl (by decide)
     (by decide)⟩

/-! ## Further plumbing towards idempotence -/

theorem splitLinesGo_flatten :
    ∀ (s acc : Str), (splitLinesGo s acc).flatten = acc.reverse ++ s
  | [], acc => by
    by_cases h : acc = [] <;> simp [splitLinesGo, h]
  | c :: cs, acc => by
    by_cases h : c = '\n'
    · subst h
      simp [splitLinesGo, splitLinesGo_flatten cs []]
    · simp [splitLinesGo, h, splitLinesGo_flatten cs (c :: acc)]

theorem splitLines_flatten_self (s : Str) : (splitLines s).flatten = s := by
  unfold splitLines
  simp [splitLinesGo_flatten]

theorem flatten_filter_nonempty :
    ∀ lines : List Str,
      (lines.filter fun l => !l.isEmpty).flatten = lines.flatten
  | [] => rfl
  | l :: ls => by
    cases l with
    | nil => simp [List.filter, flatten_filter_nonempty ls]
    | cons c cs => simp [List.filter, flatten_filter_nonempty ls]

theorem mem_alookup_isSome (k : Str) (v : β) :
    ∀ d : List (Str × β), (k, v) ∈ d → (alookup k d).isSome
  | [], h => absurd h (List.not_mem_nil _)
  | (a, b) :: t, h => by
    by_cases ha : a = k
    · simp [alookup, ha]
    · rcases List.mem_cons.mp h with h' | h'
      · exact absurd (congrArg Prod.fst h').symm ha
      · simpa [alookup, ha] using mem_alookup_isSome k v t h'

theorem alookup_dictSet_isSome_mono (d : ImgDict) (k k' : Str)
    (v : Option (Str × Str)) (h : (alookup k d).isSome) :
    (alookup k (dictSet d k' v)).isSome := by
  by_cases hk : k = k'
  · subst hk; simp [alookup_dictSet_self]
  · rwa [alookup_dictSet_ne _ _ _ hk]

theorem replaceImageLinkLine_lookup_mono (env : Env) (d : ImgDict)
    (line k : Str) (h : (alookup k d).isSome) :
    (alookup k (replaceImageLinkLine env d line).1).isSome := by
  unfold replaceImageLinkLine
  cases GetImageInfo env line with
  | none => exact h
  | internal lbl => exact alookup_dictSet_isSome_mono d k lbl _ h
  | external p a lbl e => exact alookup_dictSet_isSome_mono d k lbl _ h

theorem pass1Go_lookup_mono (env : Env) :
    ∀ (lines : List Str) (d : ImgDict) (k : Str), (alookup k d).isSome →
      (alookup k (pass1Go env d lines).1).isSome
  | [], _, _, h => h
  | l :: ls, d, k, h =>
    pass1Go_lookup_mono env ls _ k (replaceImageLinkLine_lookup_mono env d l k h)

theorem mem_dictSet (k : Str) (v : Option (Str × Str)) :
    ∀ d : ImgDict, ∀ kv ∈ dictSet d k v, kv = (k, v) ∨ kv ∈ d
  | [], kv, h => by simpa [dictSet] using h
  | (a, b) :: t, kv, h => by
    by_cases ha : a = k
    · rw [dictSet, if_pos ha] at h
      rcases List.mem_cons.mp h with h' | h'
      · exact Or.inl h'
      · exact Or.inr (List.mem_cons_of_mem _ h')
    · rw [dictSet, if_neg ha] at h
      rcases List.mem_cons.mp h with h' | h'
      · exact Or.inr (h' ▸ List.mem_cons_self _ _)
      · rcases mem_dictSet k v t kv h' with h'' | h''
        · exact Or.inl h''
        · exact Or.inr (List.mem_cons_of_mem _ h'')

theorem repeatN_lf_flatten :
    ∀ n : Nat, repeatN ['\n'] n = (List.replicate n (['\n'] : Str)).flatten
  | 0 => rfl
  | n + 1 => by simp [repeatN, List.replicate, repeatN_lf_flatten n]

theorem mem_extRef (c : Char) (alt path : Str) (h : c ∈ extRef alt path) :
    c = '!' ∨ c = '[' ∨ c ∈ alt ∨ c = ']' ∨ c = '(' ∨ c ∈ path ∨ c = ')' := by
  simp only [extRef, List.mem_cons, List.mem_append, List.mem_singleton] at h
  tauto

theorem mem_intRef (c : Char) (alt lbl : Str) (h : c ∈ intRef alt lbl) :
    c = '!' ∨ c = '[' ∨ c ∈ alt ∨ c = ']' ∨ c ∈ lbl := by
  simp only [intRef, List.mem_cons, List.mem_append, List.mem_singleton] at h
  tauto

theorem mem_dataRef (c : Char) (lbl rest : Str) (h : c ∈ dataRef lbl rest) :
    c = '[' ∨ c ∈ lbl ∨ c = ']' ∨ c ∈ (":data:image".data : Str) ∨ c ∈ rest := by
  have hmk : (":data:image".data : Str) =
      ':' :: 'd' :: 'a' :: 't' :: 'a' :: ':' :: 'i' :: 'm' :: 'a' :: 'g' ::
        'e' :: [] := rfl
  rw [dataRef, hmk] at h
  rw [hmk]
  simp only [List.mem_cons, List.mem_append] at h ⊢
  tauto

theorem mem_extRef_tok (alt path : Str) (ha : tokOK alt = true)
    (hp : tokOK path = true) (c : Char) (hm : c ∈ extRef alt path) :
    c = '!' ∨ c = '[' ∨ c = ']' ∨ c = '(' ∨ c = ')' ∨ isTokChar c = true := by
  rcases mem_extRef c alt path hm with h | h | h | h | h | h | h
  · exact Or.inl h
  · exact Or.inr (Or.inl h)
  · exact Or.inr (Or.inr (Or.inr (Or.inr (Or.inr (List.all_eq_true.mp ha _ h)))))
  · exact Or.inr (Or.inr (Or.inl h))
  · exact Or.inr (Or.inr (Or.inr (Or.inl h)))
  · exact Or.inr (Or.inr (Or.inr (Or.inr (Or.inr (List.all_eq_true.mp hp _ h)))))
  · exact Or.inr (Or.inr (Or.inr (Or.inr (Or.inl h))))

theorem mem_intRef_tok (alt lbl : Str) (ha : tokOK alt = true)
    (hl : tokOK lbl = true) (c : Char) (hm : c ∈ intRef alt lbl) :
    c = '!' ∨ c = '[' ∨ c = ']' ∨ isTokChar c = true := by
  rcases mem_intRef c alt lbl hm with h | h | h | h | h
  · exact Or.inl h
  · exact Or.inr (Or.inl h)
  · exact Or.inr (Or.inr (Or.inr (List.all_eq_true.mp ha _ h)))
  · exact Or.inr (Or.inr (Or.inl h))
  · exact Or.inr (Or.inr (Or.inr (List.all_eq_true.mp hl _ h)))

theorem mem_dataRef_tok (lbl rest : Str) (hl : tokOK lbl = true)
    (hr : tokOK rest = true) (c : Char) (hm : c ∈ dataRef lbl rest) :
    c = '[' ∨ c = ']' ∨ isTokChar c = true := by
  have hmk : ∀ x ∈ (":data:image".data : Str), isTokChar x = true := by decide
  rcases mem_dataRef c lbl rest hm with h | h | h | h | h
  · exact Or.inl h
  · exact Or.inr (Or.inr (List.all_eq_true.mp hl _ h))
  · exact Or.inr (Or.inl h)
  · exact Or.inr (Or.inr (hmk _ h))
  · exact Or.inr (Or.inr (List.all_eq_true.mp hr _ h))

theorem not_mem_extRef (alt path : Str) (ha : tokOK alt = true)
    (hp : tokOK path = true) (c : Char) (hc : isTokChar c = false)
    (h1 : c ≠ '!') (h2 : c ≠ '[') (h3 : c ≠ ']') (h4 : c ≠ '(')
    (h5 : c ≠ ')') : c ∉ extRef alt path := by
  intro hm
  rcases mem_extRef_tok alt path ha hp c hm with h | h | h | h | h | h
  exacts [h1 h, h2 h, h3 h, h4 h, h5 h,
    Bool.false_ne_true (hc ▸ h)]

theorem not_mem_intRef (alt lbl : Str) (ha : tokOK alt = true)
    (hl : tokOK lbl = true) (c : Char) (hc : isTokChar c = false)
    (h1 : c ≠ '!') (h2 : c ≠ '[') (h3 : c ≠ ']') : c ∉ intRef alt lbl := by
  intro hm
  rcases mem_intRef_tok alt lbl ha hl c hm with h | h | h | h
  exacts [h1 h, h2 h, h3 h, Bool.false_ne_true (hc ▸ h)]

theorem not_mem_dataRef (lbl rest : Str) (hl : tokOK lbl = true)
    (hr : tokOK rest = true) (c : Char) (hc : isTokChar c = false)
    (h2 : c ≠ '[') (h3 : c ≠ ']') : c ∉ dataRef lbl rest := by
  intro hm
  rcases mem_dataRef_tok lbl rest hl hr c hm with h | h | h
  exacts [h2 h, h3 h, Bool.false_ne_true (hc ▸ h)]

theorem canonLine_facts (l : Str) (hc : canonLine l) :
    properLine l ∧ '\r' ∉ l ∧ l ≠ [] := by
  rcases hc with ⟨body, rfl, hb1, hb2, hb3⟩ | ⟨alt, path, rfl, ha, hp⟩ |
    ⟨alt, lbl, rfl, ha, hl⟩ | ⟨lbl, rest, rfl, hl, hr⟩
  · refine ⟨⟨body, rfl, hb3⟩, ?_, by simp⟩
    intro hm
    rcases List.mem_append.mp hm with h | h
    · exact hb2 h
    · simp at h
  · have hn := not_mem_extRef alt path ha hp '\n' (by decide) (by decide)
      (by decide) (by decide) (by decide) (by decide)
    have hr := not_mem_extRef alt path ha hp '\r' (by decide) (by decide)
      (by decide) (by decide) (by decide) (by decide)
    refine ⟨⟨extRef alt path, rfl, hn⟩, ?_, by simp [extRef]⟩
    intro hm
    rcases List.mem_append.mp hm with h | h
    · exact hr h
    · simp at h
  · have hn := not_mem_intRef alt lbl ha hl '\n' (by decide) (by decide)
      (by decide) (by decide)
    have hr := not_mem_intRef alt lbl ha hl '\r' (by decide) (by decide)
      (by decide) (by decide)
    refine ⟨⟨intRef alt lbl, rfl, hn⟩, ?_, by simp [intRef]⟩
    intro hm
    rcases List.mem_append.mp hm with h | h
    · exact hr h
    · simp at h
  · have hn := not_mem_dataRef lbl rest hl hr '\n' (by decide) (by decide)
      (by decide)
    have hrr := not_mem_dataRef lbl rest hl hr '\r' (by decide) (by decide)
      (by decide)
    refine ⟨⟨dataRef lbl rest, rfl, hn⟩, ?_, by simp [dataRef]⟩
    intro hm
    rcases List.mem_append.mp hm with h | h
    · exact hrr h
    · simp at h

/-! ## Pass 1 on canonical lines -/

theorem canon_pass1 (env : Env) (d : ImgDict) (l : Str) (hc : canonLine l) :
    canonLine (replaceImageLinkLine env d l).2 ∧
    (GetImageInfo env (replaceImageLinkLine env d l).2 = ImageInfo.none ∨
      ∃ lbl, GetImageInfo env (replaceImageLinkLine env d l).2 =
        ImageInfo.internal lbl) ∧
    ∀ k, (alookup k (replaceImageLinkLine env d l).1).isSome →
      (alookup k d).isSome ∨
      GetImageInfo env (replaceImageLinkLine env d l).2 =
        ImageInfo.internal k := by
  rcases hc with ⟨body, rfl, hb1, hb2, hb3⟩ | ⟨alt, path, rfl, ha, hp⟩ |
    ⟨alt, lbl, rfl, ha, hl⟩ | ⟨lbl, rest, rfl, hl, hr⟩
  · have hg : GetImageInfo env (body ++ ['\n']) = ImageInfo.none := by
      refine GetImageInfo_no_bracket env _ fun c hm => ?_
      rcases List.mem_append.mp hm with h | h
      · exact fun e => hb1 (e ▸ h)
      · simp at h; subst h; decide
    rw [replaceImageLinkLine_of_none env d _ hg]
    exact ⟨Or.inl ⟨body, rfl, hb1, hb2, hb3⟩, Or.inl hg,
      fun k hk => Or.inl hk⟩
  · by_cases h0 : path = []
    · have hg : GetImageInfo env (extRef alt path ++ ['\n']) = ImageInfo.none :=
        GetImageInfo_extRef_invalid env alt path ha hp (Or.inl h0)
      rw [replaceImageLinkLine_of_none env d _ hg]
      exact ⟨Or.inr (Or.inl ⟨alt, path, rfl, ha, hp⟩), Or.inl hg,
        fun k hk => Or.inl hk⟩
    · cases hfs : alookup (resolvePath env path) env.fs with
      | none =>
        have hg : GetImageInfo env (extRef alt path ++ ['\n']) =
            ImageInfo.none :=
          GetImageInfo_extRef_invalid env alt path ha hp (Or.inr (Or.inl hfs))
        rw [replaceImageLinkLine_of_none env d _ hg]
        exact ⟨Or.inr (Or.inl ⟨alt, path, rfl, ha, hp⟩), Or.inl hg,
          fun k hk => Or.inl hk⟩
      | some B =>
        by_cases hex : (splitextP (basenameP path)).2 ∈ allowedExts
        · rw [replaceImageLinkLine_extRef env d alt path B ha hp h0 hfs hex]
          have hgi : GetImageInfo env (intRef (labelOf B) (labelOf B) ++ ['\n']) =
              ImageInfo.internal (labelOf B) :=
            GetImageInfo_intRef env _ _ (tokOK_labelOf B) (tokOK_labelOf B)
          refine ⟨Or.inr (Or.inr (Or.inl ⟨labelOf B, labelOf B, rfl,
            tokOK_labelOf B, tokOK_labelOf B⟩)), Or.inr ⟨labelOf B, hgi⟩,
            fun k hk => ?_⟩
          rcases alookup_dictSet_isSome d (labelOf B) _ k hk with rfl | hk'
          · exact Or.inr hgi
          · exact Or.inl hk'
        · have hg : GetImageInfo env (extRef alt path ++ ['\n']) =
              ImageInfo.none :=
            GetImageInfo_extRef_invalid env alt path ha hp
              (Or.inr (Or.inr hex))
          rw [replaceImageLinkLine_of_none env d _ hg]
          exact ⟨Or.inr (Or.inl ⟨alt, path, rfl, ha, hp⟩), Or.inl hg,
            fun k hk => Or.inl hk⟩
  · have hg : GetImageInfo env (intRef alt lbl ++ ['\n']) =
        ImageInfo.internal lbl := GetImageInfo_intRef env alt lbl ha hl
    rw [replaceImageLinkLine_of_internal env d _ lbl hg]
    refine ⟨Or.inr (Or.inr (Or.inl ⟨alt, lbl, rfl, ha, hl⟩)),
      Or.inr ⟨lbl, hg⟩, fun k hk => ?_⟩
    rcases alookup_dictSet_isSome d lbl _ k hk with rfl | hk'
    · exact Or.inr hg
    · exact Or.inl hk'
  · have hg : GetImageInfo env (dataRef lbl rest ++ ['\n']) = ImageInfo.none := by
      refine GetImageInfo_no_bang env _ fun c hm => ?_
      rcases List.mem_append.mp hm with h | h
      · exact fun e =>
          not_mem_dataRef lbl rest hl hr '!' (by decide) (by decide)
            (by decide) (e ▸ h)
      · simp at h; subst h; decide
    rw [replaceImageLinkLine_of_none env d _ hg]
    exact ⟨Or.inr (Or.inr (Or.inr ⟨lbl, rest, rfl, hl, hr⟩)), Or.inl hg,
      fun k hk => Or.inl hk⟩

/-- A canonical line classifying as an internal reference never matches the
data pattern. -/
theorem canon_internal_nodata (env : Env) (l lbl : Str) (hc : canonLine l)
    (h : GetImageInfo env l = ImageInfo.internal lbl) : searchData l = none := by
  rcases hc with ⟨body, rfl, hb1, hb2, hb3⟩ | ⟨alt, path, rfl, ha, hp⟩ |
    ⟨alt, lbl', rfl, ha, hl⟩ | ⟨lbl', rest, rfl, hl, hr⟩
  · have hg : GetImageInfo env (body ++ ['\n']) = ImageInfo.none := by
      refine GetImageInfo_no_bracket env _ fun c hm => ?_
      rcases List.mem_append.mp hm with h' | h'
      · exact fun e => hb1 (e ▸ h')
      · simp at h'; subst h'; decide
    rw [hg] at h
    exact absurd h (by simp)
  · obtain ⟨-, -, hra, -, -, -, -⟩ := tokOK_spec alt ha
    obtain ⟨hbp, hbbp, -, -, -, -, -⟩ := tokOK_spec path hp
    obtain ⟨hba, hbba, -, -, -, -, -⟩ := tokOK_spec alt ha
    rw [searchData_extRef alt path _ hra hbba hbbp]
    rfl
  · obtain ⟨-, hbba, hra, -, -, -, -⟩ := tokOK_spec alt ha
    obtain ⟨-, hbbl, hrl, -, -, -, -⟩ := tokOK_spec lbl' hl
    rw [searchData_intRef alt lbl' _ hra hrl hbba hbbl (by decide)]
    rfl
  · have hg : GetImageInfo env (dataRef lbl' rest ++ ['\n']) =
        ImageInfo.none := by
      refine GetImageInfo_no_bang env _ fun c hm => ?_
      rcases List.mem_append.mp hm with h' | h'
      · exact fun e =>
          not_mem_dataRef lbl' rest hl hr '!' (by decide) (by decide)
            (by decide) (e ▸ h')
      · simp at h'; subst h'; decide
    rw [hg] at h
    exact absurd h (by simp)

/-- A canonical line either misses the data pattern or is exactly a
canonical data line, whose label the pattern extracts. -/
theorem canon_searchData (l : Str) (hc : canonLine l) :
    searchData l = none ∨
    ∃ lbl rest, l = dataRef lbl rest ++ ['\n'] ∧ searchData l = some lbl ∧
      tokOK lbl = true ∧ tokOK rest = true := by
  rcases hc with ⟨body, rfl, hb1, hb2, hb3⟩ | ⟨alt, path, rfl, ha, hp⟩ |
    ⟨alt, lbl, rfl, ha, hl⟩ | ⟨lbl, rest, rfl, hl, hr⟩
  · refine Or.inl (searchData_eq_none_no_bracket _ fun c hm => ?_)
    rcases List.mem_append.mp hm with h' | h'
    · exact fun e => hb1 (e ▸ h')
    · simp at h'; subst h'; decide
  · obtain ⟨-, hbba, hra, -, -, -, -⟩ := tokOK_spec alt ha
    obtain ⟨-, hbbp, -, -, -, -, -⟩ := tokOK_spec path hp
    rw [searchData_extRef alt path _ hra hbba hbbp]
    exact Or.inl rfl
  · obtain ⟨-, hbba, hra, -, -, -, -⟩ := tokOK_spec alt ha
    obtain ⟨-, hbbl, hrl, -, -, -, -⟩ := tokOK_spec lbl hl
    rw [searchData_intRef alt lbl _ hra hrl hbba hbbl (by decide)]
    exact Or.inl rfl
  · obtain ⟨-, -, hrl, -, -, -, -⟩ := tokOK_spec lbl hl
    exact Or.inr ⟨lbl, rest, rfl, searchData_dataRef lbl rest _ hrl, hl, hr⟩

/-! ## Pass-level facts over canonical lines -/

theorem pass1Go_step (env : Env) (d : ImgDict) (l : Str) (ls : List Str) :
    pass1Go env d (l :: ls) =
      ((pass1Go env (replaceImageLinkLine env d l).1 ls).1,
       (replaceImageLinkLine env d l).2 ::
         (pass1Go env (replaceImageLinkLine env d l).1 ls).2) := rfl

theorem pass1Go_canon (env : Env) :
    ∀ (lines : List Str) (d : ImgDict), (∀ l ∈ lines, canonLine l) →
      (∀ l' ∈ (pass1Go env d lines).2, canonLine l' ∧
        (GetImageInfo env l' = ImageInfo.none ∨
          ∃ lbl, GetImageInfo env l' = ImageInfo.internal lbl)) ∧
      ∀ k, (alookup k (pass1Go env d lines).1).isSome →
        (alookup k d).isSome ∨
        ∃ l' ∈ (pass1Go env d lines).2,
          GetImageInfo env l' = ImageInfo.internal k
  | [], d, _ => ⟨by simp [pass1Go], fun k hk => Or.inl hk⟩
  | l :: ls, d, h => by
    obtain ⟨hcl, hclass, hkeys⟩ := canon_pass1 env d l (h l (by simp))
    have ih := pass1Go_canon env ls (replaceImageLinkLine env d l).1
      fun x hx => h x (by simp [hx])
    rw [pass1Go_step]
    constructor
    · intro l' hl'
      rcases List.mem_cons.mp hl' with rfl | hl'
      · exact ⟨hcl, hclass⟩
      · exact ih.1 l' hl'
    · intro k hk
      rcases ih.2 k hk with hk' | ⟨l', hl', hint⟩
      · rcases hkeys k hk' with hd | hint
        · exact Or.inl hd
        · exact Or.inr ⟨_, List.mem_cons_self _ _, hint⟩
      · exact Or.inr ⟨l', List.mem_cons_of_mem _ hl', hint⟩

theorem pass1Go_key_of_internal (env : Env) :
    ∀ (lines : List Str) (d : ImgDict) (l lbl : Str), l ∈ lines →
      GetImageInfo env l = ImageInfo.internal lbl →
      (alookup lbl (pass1Go env d lines).1).isSome
  | [], _, _, _, hm, _ => absurd hm (List.not_mem_nil _)
  | l₀ :: ls, d, l, lbl, hm, hint => by
    rw [pass1Go_step]
    rcases List.mem_cons.mp hm with rfl | hm'
    · refine pass1Go_lookup_mono env ls _ lbl ?_
      rw [replaceImageLinkLine_of_internal env d l lbl hint]
      simp [alookup_dictSet_self]
    · exact pass1Go_key_of_internal env ls _ l lbl hm' hint

theorem pass1Go_stable (env : Env) :
    ∀ (lines : List Str) (d : ImgDict),
      (∀ l ∈ lines, GetImageInfo env l = ImageInfo.none ∨
        ∃ lbl, GetImageInfo env l = ImageInfo.internal lbl) →
      (pass1Go env d lines).2 = lines
  | [], _, _ => rfl
  | l :: ls, d, h => by
    rw [pass1Go_step]
    have hout : (replaceImageLinkLine env d l).2 = l := by
      rcases h l (by simp) with hg | ⟨lbl, hg⟩
      · rw [replaceImageLinkLine_of_none env d l hg]
      · rw [replaceImageLinkLine_of_internal env d l lbl hg]
    rw [hout, pass1Go_stable env ls _ fun x hx => h x (by simp [hx])]

theorem pass1Go_allNone (env : Env) :
    ∀ (lines : List Str) (d : ImgDict),
      (∀ l ∈ lines, GetImageInfo env l = ImageInfo.none ∨
        ∃ lbl, GetImageInfo env l = ImageInfo.internal lbl) →
      (∀ kv ∈ d, kv.2 = Option.none) →
      ∀ kv ∈ (pass1Go env d lines).1, kv.2 = Option.none
  | [], _, _, hd => hd
  | l :: ls, d, h, hd => by
    rw [pass1Go_step]
    refine pass1Go_allNone env ls _ (fun x hx => h x (by simp [hx]))
      fun kv hkv => ?_
    rcases h l (by simp) with hg | ⟨lbl, hg⟩
    · rw [replaceImageLinkLine_of_none env d l hg] at hkv
      exact hd kv hkv
    · rw [replaceImageLinkLine_of_internal env d l lbl hg] at hkv
      rcases mem_dictSet lbl Option.none d kv hkv with rfl | hkv'
      · rfl
      · exact hd kv hkv'

theorem dictMemOK_nil (env : Env) : dictMemOK env [] := by
  intro kv hkv
  simp at hkv

theorem dictMemOK_set (env : Env) (d : ImgDict) (k : Str)
    (v : Option (Str × Str))
    (hv : ∀ a e, v = some (a, e) →
      ∃ B, alookup a env.fs = some B ∧ k = labelOf B ∧ e ∈ allowedExts)
    (h : dictMemOK env d) : dictMemOK env (dictSet d k v) := by
  intro kv hkv a e hkv2
  rcases mem_dictSet k v d kv hkv with rfl | hkv'
  · exact hv a e hkv2
  · exact h kv hkv' a e hkv2

theorem replaceImageLinkLine_dictMemOK (env : Env) (d : ImgDict) (line : Str)
    (h : dictMemOK env d) :
    dictMemOK env (replaceImageLinkLine env d line).1 := by
  unfold replaceImageLinkLine
  cases hg : GetImageInfo env line with
  | none => exact h
  | internal lbl =>
    exact dictMemOK_set env d lbl Option.none (fun a e he => by simp at he) h
  | external p a k e =>
    obtain ⟨-, -, -, he, B, hB, rfl⟩ :=
      GetImageInfo_external_spec env line p a k e hg
    refine dictMemOK_set env d _ _ (fun a' e' he' => ?_) h
    obtain ⟨rfl, rfl⟩ : a = a' ∧ e = e' := by
      simpa using he'
    exact ⟨B, hB, rfl, he⟩

theorem pass1Go_dictMemOK (env : Env) :
    ∀ (lines : List Str) (d : ImgDict), dictMemOK env d →
      dictMemOK env (pass1Go env d lines).1
  | [], _, h => h
  | l :: ls, d, h =>
    pass1Go_dictMemOK env ls _ (replaceImageLinkLine_dictMemOK env d l h)

/-! ## Pass-2 membership facts -/

theorem pass2Go_step (cfg : Config) (d : ImgDict) (l : Str) (ls : List Str) :
    pass2Go cfg d (l :: ls) =
      ((pass2Go cfg (processOldDataLine cfg d l).1 ls).1,
       (processOldDataLine cfg d l).2 ::
         (pass2Go cfg (processOldDataLine cfg d l).1 ls).2) := rfl

theorem processOldDataLine_out (cfg : Config) (d : ImgDict) (line : Str) :
    (processOldDataLine cfg d line).2 = line ∨
      (processOldDataLine cfg d line).2 = [] := by
  unfold processOldDataLine
  cases hs : searchData line with
  | none => exact Or.inl rfl
  | some lbl =>
    by_cases hz : lbl.length = 0
    · simp [hz]
    · simp only [if_neg hz]
      cases hd : alookup lbl d with
      | none => by_cases hk : cfg.keepUselessDataFlag <;> simp [hk]
      | some v =>
        by_cases hu : cfg.useOldDataFlag
        · simp [hu]
        · by_cases hv : v.isSome <;> simp [hu, hv]

theorem pass2Go_mem_out (cfg : Config) (hu : cfg.useOldDataFlag = false) :
    ∀ (lines : List Str) (d : ImgDict) (l' : Str),
      l' ∈ (pass2Go cfg d lines).2 →
      l' = [] ∨ (l' ∈ lines ∧ (processOldDataLine cfg d l').2 = l')
  | [], _, _, hm => absurd hm (List.not_mem_nil _)
  | l :: ls, d, l', hm => by
    rw [pass2Go_step] at hm
    rcases List.mem_cons.mp hm with hm' | hm'
    · rcases processOldDataLine_out cfg d l with ho | ho
      · rw [ho] at hm'
        subst hm'
        exact Or.inr ⟨List.mem_cons_self _ _, ho⟩
      · rw [ho] at hm'
        exact Or.inl hm'
    · rw [processOldDataLine_dict cfg d l hu] at hm'
      rcases pass2Go_mem_out cfg hu ls d l' hm' with h | ⟨h1, h2⟩
      · exact Or.inl h
      · exact Or.inr ⟨List.mem_cons_of_mem _ h1, h2⟩

theorem pass2Go_keeps (cfg : Config) (hu : cfg.useOldDataFlag = false) :
    ∀ (lines : List Str) (d : ImgDict) (l : Str), l ∈ lines →
      (processOldDataLine cfg d l).2 = l → l ∈ (pass2Go cfg d lines).2
  | [], _, _, hm, _ => absurd hm (List.not_mem_nil _)
  | l₀ :: ls, d, l, hm, hout => by
    rw [pass2Go_step]
    rcases List.mem_cons.mp hm with rfl | hm'
    · rw [hout]
      exact List.mem_cons_self _ _
    · rw [processOldDataLine_dict cfg d l₀ hu]
      exact List.mem_cons_of_mem _ (pass2Go_keeps cfg hu ls d l hm' hout)

theorem pass2Go_id (cfg : Config) :
    ∀ (lines : List Str) (d : ImgDict),
      (∀ l ∈ lines, processOldDataLine cfg d l = (d, l)) →
      pass2Go cfg d lines = (d, lines)
  | [], _, _ => rfl
  | l :: ls, d, h => by
    rw [pass2Go_step, h l (by simp),
      pass2Go_id cfg ls d fun x hx => h x (by simp [hx])]

theorem dataBlock_lf (n : Nat) (lbl ext : Str) (bytes : Bytes) :
    dataBlock ['\n'] n lbl ext bytes =
      (List.replicate n (['\n'] : Str) ++
        [dataRef lbl ('/' :: ext ++ ";base64,".data ++ encodeB64 bytes) ++
          ['\n']]).flatten := by
  have h1 : ("]:data:image/".data : Str) =
      ']' :: (":data:image".data ++ ['/']) := rfl
  simp [dataBlock, dataRef, repeatN_lf_flatten n, h1, List.append_assoc]

theorem InsertNewData_lf (env : Env) (n : Nat) :
    ∀ d : ImgDict, InsertNewData env ['\n'] n d = (blockLines env n d).flatten
  | [] => rfl
  | e :: t => by
    have ih := InsertNewData_lf env n t
    unfold InsertNewData blockLines at ih ⊢
    simp only [List.map_cons, List.flatten_cons, ih]
    obtain ⟨k, v⟩ := e
    cases v with
    | none => simp
    | some pe =>
      obtain ⟨p, ext⟩ := pe
      cases hfs : alookup p env.fs with
      | none => simp [hfs]
      | some bytes => simp [hfs, dataBlock_lf n k ext bytes]

theorem mem_blockLines (env : Env) (n : Nat) (d : ImgDict) (l : Str)
    (h : l ∈ blockLines env n d) :
    l = ['\n'] ∨ ∃ k p ext bytes, (k, some (p, ext)) ∈ d ∧
      alookup p env.fs = some bytes ∧
      l = dataRef k ('/' :: ext ++ ";base64,".data ++ encodeB64 bytes) ++
        ['\n'] := by
  unfold blockLines at h
  rw [List.mem_flatten] at h
  obtain ⟨L, hL, hlL⟩ := h
  rw [List.mem_map] at hL
  obtain ⟨e, he, hLe⟩ := hL
  obtain ⟨k, v⟩ := e
  cases v with
  | none => subst hLe; simp at hlL
  | some pe =>
    obtain ⟨p, ext⟩ := pe
    dsimp only at hLe
    cases hfs : alookup p env.fs with
    | none => rw [hfs] at hLe; subst hLe; simp at hlL
    | some bytes =>
      rw [hfs] at hLe
      subst hLe
      rcases List.mem_append.mp hlL with hm | hm
      · exact Or.inl (List.eq_of_mem_replicate hm)
      · rw [List.mem_singleton] at hm
        exact Or.inr ⟨k, p, ext, bytes, he, hfs, hm⟩

theorem tokOK_append (s t : Str) (hs : tokOK s = true) (ht : tokOK t = true) :
    tokOK (s ++ t) = true := by
  unfold tokOK at hs ht ⊢
  rw [List.all_append, hs, ht]
  rfl

theorem tokOK_dataRest (ext : Str) (bytes : Bytes)
    (he : tokOK ext = true) :
    tokOK ('/' :: ext ++ ";base64,".data ++ encodeB64 bytes) = true := by
  have h1 : tokOK (";base64,".data : Str) = true := by decide
  have h2 : ('/' :: ext ++ ";base64,".data ++ encodeB64 bytes : Str) =
      ['/'] ++ (ext ++ (";base64,".data ++ encodeB64 bytes)) := by
    simp [List.append_assoc]
  rw [h2]
  exact tokOK_append _ _ (by decide)
    (tokOK_append _ _ he (tokOK_append _ _ h1 (tokOK_encodeB64 bytes)))

/-- Each line of the appended data is canonical: a bare newline or a
canonical data line whose label is a key of the dictionary. -/
theorem blockLines_canon (env : Env) (n : Nat) (d : ImgDict)
    (hd : dictMemOK env d) (l : Str) (h : l ∈ blockLines env n d) :
    canonLine l ∧
      (l = ['\n'] ∨ ∃ k rest, l = dataRef k rest ++ ['\n'] ∧
        tokOK k = true ∧ tokOK rest = true ∧ k ≠ [] ∧
        (alookup k d).isSome) := by
  rcases mem_blockLines env n d l h with rfl | ⟨k, p, ext, bytes, he, hfs, rfl⟩
  · constructor
    · exact Or.inl ⟨[], rfl, by simp, by simp, by simp⟩
    · exact Or.inl rfl
  · obtain ⟨B, hB, hkB, hext⟩ := hd (k, some (p, ext)) he p ext rfl
    have hbb : B = bytes := by
      rw [hB] at hfs
      exact Option.some.inj hfs
    subst hbb
    subst hkB
    have hrest : tokOK ('/' :: ext ++ ";base64,".data ++ encodeB64 B) = true :=
      tokOK_dataRest ext B (tokOK_allowedExts ext hext)
    refine ⟨Or.inr (Or.inr (Or.inr ⟨labelOf B, _, rfl, tokOK_labelOf B, hrest⟩)),
      Or.inr ⟨labelOf B, _, rfl, tokOK_labelOf B, hrest, labelOf_ne_nil B,
        mem_alookup_isSome _ _ d he⟩⟩

/-! ## The fixed-point lemma: a run-2-ready line list is left unchanged -/

theorem encode_fixed (env : Env) (cfg : Config)
    (hu : cfg.useOldDataFlag = false) (lines : List Str)
    (h1 : ∀ l ∈ lines, properLine l)
    (h2 : ∀ l ∈ lines, GetImageInfo env l = ImageInfo.none ∨
      ∃ lbl, GetImageInfo env l = ImageInfo.internal lbl)
    (h3 : ∀ l ∈ lines, ∀ lbl, searchData l = some lbl → lbl ≠ [] →
      ∃ l' ∈ lines, GetImageInfo env l' = ImageInfo.internal lbl) :
    EncodeImageInDocument env cfg lines.flatten = lines.flatten := by
  have hsplit : splitLines lines.flatten = lines := by
    rw [splitLines_flatten lines fun l hl => Or.inl (h1 l hl)]
    refine List.filter_eq_self.mpr fun l hl => ?_
    obtain ⟨body, rfl, -⟩ := h1 l hl
    simp
  have hp1 := ReplaceImageLink_eq env lines.flatten
  rw [hsplit] at hp1
  have houts : (pass1Go env [] lines).2 = lines := pass1Go_stable env lines [] h2
  have hnone : ∀ kv ∈ (pass1Go env [] lines).1, kv.2 = Option.none :=
    pass1Go_allNone env lines [] h2 (by simp)
  have hkeep : ∀ l ∈ lines,
      processOldDataLine cfg (pass1Go env [] lines).1 l =
        ((pass1Go env [] lines).1, l) := by
    intro l hl
    cases hs : searchData l with
    | none => exact processOldDataLine_of_nodata cfg _ l hs
    | some lbl =>
      by_cases hz : lbl = []
      · subst hz
        unfold processOldDataLine
        rw [hs]
        simp
      · obtain ⟨l', hl', hint⟩ := h3 l hl lbl hs hz
        have hkey := pass1Go_key_of_internal env lines [] l' lbl hl' hint
        obtain ⟨v, hv⟩ := Option.isSome_iff_exists.mp hkey
        have hvn : v = Option.none := hnone (lbl, v) (alookup_mem lbl v _ hv)
        subst hvn
        unfold processOldDataLine
        rw [hs]
        have hlen : ¬lbl.length = 0 := fun h => hz (List.length_eq_zero.mp h)
        simp [hlen, hv, hu]
  have hP2 : ProcessOldData cfg (pass1Go env [] lines).1 lines.flatten =
      ((pass1Go env [] lines).1, lines.flatten) := by
    rw [ProcessOldData_eq, hsplit, pass2Go_id cfg lines _ hkeep]
  simp only [EncodeImageInDocument, hp1, houts, hP2]
  rw [InsertNewData_all_none env (GetLinesep lines.flatten) cfg.spacelines _
    hnone]
  simp

/-! ## The output of a canonical run is a fixed point -/

theorem run1_output_ready (env : Env) (cfg : Config)
    (hu : cfg.useOldDataFlag = false) (hk : cfg.keepUselessDataFlag = false)
    (d1 : ImgDict) (outs1 : List Str)
    (hout1 : ∀ l ∈ outs1, canonLine l ∧
      (GetImageInfo env l = ImageInfo.none ∨
        ∃ lbl, GetImageInfo env l = ImageInfo.internal lbl))
    (hkeys : ∀ k, (alookup k d1).isSome →
      ∃ l' ∈ outs1, GetImageInfo env l' = ImageInfo.internal k)
    (hmemOK : dictMemOK env d1) :
    EncodeImageInDocument env cfg
        ((pass2Go cfg d1 outs1).2 ++ blockLines env cfg.spacelines d1).flatten =
      ((pass2Go cfg d1 outs1).2 ++ blockLines env cfg.spacelines d1).flatten := by
  have hparts : ∀ l ∈ ((pass2Go cfg d1 outs1).2 ++
      blockLines env cfg.spacelines d1).filter (fun x => !x.isEmpty),
      canonLine l ∧
      (GetImageInfo env l = ImageInfo.none ∨
        ∃ lbl, GetImageInfo env l = ImageInfo.internal lbl) ∧
      ∀ lbl, searchData l = some lbl → lbl ≠ [] →
        (alookup lbl d1).isSome := by
    intro l hl
    rw [List.mem_filter] at hl
    obtain ⟨hl, hne⟩ := hl
    have hlne : l ≠ [] := by
      intro h
      subst h
      simp at hne
    rcases List.mem_append.mp hl with hl2 | hlb
    · rcases pass2Go_mem_out cfg hu outs1 d1 l hl2 with rfl | ⟨hin1, hpol⟩
      · exact absurd rfl hlne
      · obtain ⟨hcl, hclass⟩ := hout1 l hin1
        refine ⟨hcl, hclass, fun lbl hs hz => ?_⟩
        cases hlk : alookup lbl d1 with
        | some v => rfl
        | none =>
          exfalso
          unfold processOldDataLine at hpol
          simp only [hs] at hpol
          have hlen : ¬lbl.length = 0 := fun h => hz (List.length_eq_zero.mp h)
          rw [if_neg hlen] at hpol
          simp only [hlk] at hpol
          rw [hk] at hpol
          simp at hpol
          exact hlne hpol
    · obtain ⟨hcl, hshape⟩ := blockLines_canon env cfg.spacelines d1 hmemOK l hlb
      refine ⟨hcl, ?_, ?_⟩
      · rcases hshape with rfl | ⟨k, rest, heq, hkOK, hrOK, hkne, hkey⟩
        · refine Or.inl (GetImageInfo_no_bracket env _ fun c hm => ?_)
          simp at hm
          subst hm
          decide
        · subst heq
          refine Or.inl (GetImageInfo_no_bang env _ fun c hm => ?_)
          rcases List.mem_append.mp hm with h' | h'
          · exact fun e => not_mem_dataRef k rest hkOK hrOK '!' (by decide)
              (by decide) (by decide) (e ▸ h')
          · simp at h'
            subst h'
            decide
      · intro lbl hs hz
        rcases hshape with rfl | ⟨k, rest, heq, hkOK, hrOK, hkne, hkey⟩
        · have hsn : searchData (['\n'] : Str) = none := rfl
          rw [hsn] at hs
          exact absurd hs (by simp)
        · subst heq
          obtain ⟨-, -, hrk, -, -, -, -⟩ := tokOK_spec k hkOK
          rw [searchData_dataRef k rest _ hrk] at hs
          rw [← Option.some.inj hs]
          exact hkey
  rw [← flatten_filter_nonempty
    ((pass2Go cfg d1 outs1).2 ++ blockLines env cfg.spacelines d1)]
  refine encode_fixed env cfg hu _
    (fun l hl => (canonLine_facts l (hparts l hl).1).1)
    (fun l hl => (hparts l hl).2.1) ?_
  intro l hl lbl hs hz
  obtain ⟨l', hl1', hint⟩ := hkeys lbl ((hparts l hl).2.2 lbl hs hz)
  have hcl' := (hout1 l' hl1').1
  have hnd' : searchData l' = none := canon_internal_nodata env l' lbl hcl' hint
  have hkept : l' ∈ (pass2Go cfg d1 outs1).2 :=
    pass2Go_keeps cfg hu outs1 d1 l' hl1'
      (by rw [processOldDataLine_of_nodata cfg d1 l' hnd'])
  have hl'ne : l' ≠ [] := (canonLine_facts l' hcl').2.2
  have hie : l'.isEmpty = false := by
    cases l' with
    | nil => exact absurd rfl hl'ne
    | cons a as => rfl
  refine ⟨l', ?_, hint⟩
  rw [List.mem_filter]
  exact ⟨List.mem_append_left _ hkept, by rw [hie]; rfl⟩

/-- C3 (amended): the embed action is idempotent on canonical documents —
documents whose every line is newline-terminated and is either free of
reference markers or consists of exactly one well-formed reference
(external, embedded, or data block) with delimiter-free components.  With
the default flags, running `EncodeImageInDocument` a second time on the
output of the first run returns that output unchanged.  (On arbitrary
documents the claim fails, see the counterexample.) -/
theorem claim_C3 (env : Env) (cfg : Config) (doc : Str)
    (hu : cfg.useOldDataFlag = false) (hk : cfg.keepUselessDataFlag = false)
    (hc : ∀ l ∈ splitLines doc, canonLine l) :
    EncodeImageInDocument env cfg (EncodeImageInDocument env cfg doc) =
      EncodeImageInDocument env cfg doc := by
  by_cases hdoc : doc = []
  · subst hdoc
    have hnil : EncodeImageInDocument env cfg [] = [] := rfl
    rw [hnil]
    exact hnil
  · have hflat : (splitLines doc).flatten = doc := splitLines_flatten_self doc
    have hprops : ∀ l ∈ splitLines doc, properLine l ∧ '\r' ∉ l ∧ l ≠ [] :=
      fun l hl => canonLine_facts l (hc l hl)
    have hrd : '\r' ∉ doc := by
      intro hm
      rw [← hflat, List.mem_flatten] at hm
      obtain ⟨l, hl, hml⟩ := hm
      exact (hprops l hl).2.1 hml
    have hnd : '\n' ∈ doc := by
      rcases hsl : splitLines doc with _ | ⟨l, ls⟩
      · rw [← hflat, hsl] at hdoc
        exact absurd rfl hdoc
      · have hl : l ∈ splitLines doc := by
          rw [hsl]
          exact List.mem_cons_self _ _
        obtain ⟨⟨body, hb, -⟩, -, -⟩ := hprops l hl
        rw [← hflat, List.mem_flatten]
        exact ⟨l, hl, by rw [hb]; simp⟩
    have hsep : GetLinesep doc = ['\n'] := GetLinesep_eq_lf doc hrd hnd
    obtain ⟨hout1, hkeys0⟩ := pass1Go_canon env (splitLines doc) [] hc
    have hkeys : ∀ k, (alookup k (pass1Go env [] (splitLines doc)).1).isSome →
        ∃ l' ∈ (pass1Go env [] (splitLines doc)).2,
          GetImageInfo env l' = ImageInfo.internal k := by
      intro k hk'
      rcases hkeys0 k hk' with h | h
      · simp [alookup] at h
      · exact h
    have hmemOK := pass1Go_dictMemOK env (splitLines doc) [] (dictMemOK_nil env)
    have hso : splitLines (pass1Go env [] (splitLines doc)).2.flatten =
        (pass1Go env [] (splitLines doc)).2 := by
      rw [splitLines_flatten _
        fun l hl => Or.inl (canonLine_facts l (hout1 l hl).1).1]
      refine List.filter_eq_self.mpr fun l hl => ?_
      obtain ⟨body, hb, -⟩ := (canonLine_facts l (hout1 l hl).1).1
      rw [hb]
      simp
    have hE : EncodeImageInDocument env cfg doc =
        ((pass2Go cfg (pass1Go env [] (splitLines doc)).1
            (pass1Go env [] (splitLines doc)).2).2 ++
          blockLines env cfg.spacelines
            (pass1Go env [] (splitLines doc)).1).flatten := by
      have hp1 := ReplaceImageLink_eq env doc
      have hP2 := ProcessOldData_eq cfg (pass1Go env [] (splitLines doc)).1
        (pass1Go env [] (splitLines doc)).2.flatten
      rw [hso] at hP2
      simp only [EncodeImageInDocument, hp1, hP2, pass2Go_dict cfg hu, hsep]
      rw [InsertNewData_lf env cfg.spacelines, List.flatten_append]
    rw [hE]
    exact run1_output_ready env cfg hu hk _ _ hout1 hkeys hmemOK

/-- C3 counterexample: on a non-canonical document — one line combining a
data-block-shaped fragment with a valid external reference — the first run
rewrites the reference (keeping the line, whose label `old` is not in the
mapping: pass 2 only drops a line when the data shape matches, and here the
rewrite has already changed the line), appends a block, while the second
run deletes the now-orphaned line fragment, so the two outputs differ. -/
theorem claim_C3_counterexample :
    EncodeImageInDocument ⟨"/d".data, [("/d/i.png".data, [97])]⟩
        ⟨20, false, false⟩
        (EncodeImageInDocument ⟨"/d".data, [("/d/i.png".data, [97])]⟩
          ⟨20, false, false⟩ "x [old]:data:imagey ![a](i.png)\n".data) ≠
      EncodeImageInDocument ⟨"/d".data, [("/d/i.png".data, [97])]⟩
        ⟨20, false, false⟩ "x [old]:data:imagey ![a](i.png)\n".data := by
  decide

theorem claim_C3_witness :
    (∀ l ∈ splitLines "![a](i.png)\n".data, canonLine l) ∧
    EncodeImageInDocument ⟨"/d".data, [("/d/i.png".data, [97])]⟩
        ⟨20, false, false⟩
        (EncodeImageInDocument ⟨"/d".data, [("/d/i.png".data, [97])]⟩
          ⟨20, false, false⟩ "![a](i.png)\n".data) =
      EncodeImageInDocument ⟨"/d".data, [("/d/i.png".data, [97])]⟩
        ⟨20, false, false⟩ "![a](i.png)\n".data := by
  have hcanon : ∀ l ∈ splitLines "![a](i.png)\n".data, canonLine l := by
    intro l hl
    have hsp : splitLines "![a](i.png)\n".data = ["![a](i.png)\n".data] := by
      decide
    rw [hsp, List.mem_singleton] at hl
    subst hl
    exact Or.inr (Or.inl ⟨"a".data, "i.png".data, by decide, by decide,
      by decide⟩)
  exact ⟨hcanon, claim_C3 _ _ _ rfl rfl hcanon⟩
